import Mathlib

/-!
Shallow embedding of the voxel simulation engine in `src/services/VoxelEngine.ts`
(data model, physics integrator, structural-integrity analyzer, rebuild planner,
simulation controller), over exact rational arithmetic.

Conventions of the embedding:
* JavaScript floating-point numbers are embedded as `ℚ` with the literal decimal
  constants of the source (`0.052`, `0.42`, ...); arithmetic is exact.
* `Math.random()` draws are passed in as explicit parameters (`Kick`, scatter
  triples, the color jitter), `Date.now()` as an explicit `now : ℚ` parameter.
* `THREE.Color` is embedded as an rgb triple of rationals; the `offsetHSL`
  lightness jitter applied at creation is external library code and is passed
  in as an opaque function parameter.
* `getColorDist` in the source returns `Math.sqrt` of a sum of squares and the
  result is only ever *compared* (to the running best and to the `0.01`
  near-match threshold).  Since `Real.sqrt` is monotone on nonnegatives, the
  embedding computes the squared distance and compares against the squared
  thresholds (`9999 ↦ 9999 * 9999`, `0.01 ↦ 1 / 10000`); every comparison made
  by the engine has the same outcome.
* The callbacks `onStateChange` / `onCountChange` are embedded as an event log
  appended to by the operations that invoke them.
-/

namespace VoxelSim

/-- Floor height, `CONFIG.FLOOR_Y` in `src/utils/voxelConstants.ts`. -/
def FLOOR_Y : ℚ := -12

/-- An rgb color triple (`THREE.Color` r/g/b channels, nominally in [0,1]). -/
structure Color where
  r : ℚ
  g : ℚ
  b : ℚ
deriving Repr, DecidableEq

/-- One entry of `SimulationVoxel`: the per-particle simulation state owned by
the Voxel Store (`this.voxels` in `VoxelEngine.ts`). -/
structure SimVoxel where
  id : Nat
  x : ℚ
  y : ℚ
  z : ℚ
  color : Color
  vx : ℚ
  vy : ℚ
  vz : ℚ
  rx : ℚ
  ry : ℚ
  rz : ℚ
  rvx : ℚ
  rvy : ℚ
  rvz : ℚ
  isFalling : Bool
  grounded : Bool
deriving Repr, DecidableEq

/-- The six `Math.random()`-derived velocity values drawn by `triggerFalling`. -/
structure Kick where
  vx : ℚ
  vy : ℚ
  vz : ℚ
  rvx : ℚ
  rvy : ℚ
  rvz : ℚ
deriving Repr, DecidableEq

/-- Body of `triggerFalling` on a single voxel (`VoxelEngine.ts` 213-224):
if the voxel is already falling it is left unchanged, otherwise it is marked
falling, un-grounded, and given the drawn kick velocities. -/
def applyKick (k : Kick) (v : SimVoxel) : SimVoxel :=
  if v.isFalling then v
  else { v with isFalling := true, grounded := false,
                vx := k.vx, vy := k.vy, vz := k.vz,
                rvx := k.rvx, rvy := k.rvy, rvz := k.rvz }

/-- `triggerFalling(index)` on the voxel list. -/
def triggerFalling (k : Kick) (vs : List SimVoxel) (i : Nat) : List SimVoxel :=
  match vs[i]? with
  | some v => vs.set i (applyKick k v)
  | none => vs

/-- Controller state (`AppState` in `types.ts`). -/
inductive AppState where
  | STABLE
  | DISMANTLING
  | REBUILDING
deriving Repr, DecidableEq

/-- One entry of the `rebuildTargets` parallel array (`RebuildTarget` in
`types.ts`): the matched case carries a target position and an activation
delay, the rubble case is flagged `isRubble` (in the source the matched case
simply omits the field, i.e. it is falsy). -/
structure RebuildTarget where
  x : ℚ
  y : ℚ
  z : ℚ
  delay : ℚ
  isRubble : Bool
deriving Repr, DecidableEq

/-- One input record for `loadInitialModel` / `rebuild` (`VoxelData`). -/
structure VoxelData where
  x : ℚ
  y : ℚ
  z : ℚ
  color : Color
deriving Repr, DecidableEq

/-- An invocation of one of the outward lifecycle callbacks. -/
inductive EngineEvent where
  | stateChange (s : AppState)
  | countChange (n : Nat)
deriving Repr, DecidableEq

/-- The mutable state of the `VoxelEngine` class that the simulation core
reads and writes, plus the log of emitted callback events. -/
structure Engine where
  voxels : List SimVoxel
  rebuildTargets : List RebuildTarget
  rebuildStartTime : ℚ
  state : AppState
  events : List EngineEvent
deriving Repr, DecidableEq

/-! ## Physics integrator (`updatePhysics`, `VoxelEngine.ts` 388-441) -/

/-- Free-fall branch of `updatePhysics` on one voxel (source lines 422-438):
gravity, explicit-Euler integration, floor bounce with restitution `0.42` and
attenuations `0.75` / `0.65`, and the rest-detection snap. -/
def fallStepVoxel (v : SimVoxel) : SimVoxel :=
  if v.isFalling then
    let vy1 := v.vy - 0.052
    let x1 := v.x + v.vx
    let y1 := v.y + vy1
    let z1 := v.z + v.vz
    let rx1 := v.rx + v.rvx
    let ry1 := v.ry + v.rvy
    let rz1 := v.rz + v.rvz
    if y1 < FLOOR_Y + 0.5 then
      let vy2 := vy1 * (-0.42)
      let vx2 := v.vx * 0.75
      let vz2 := v.vz * 0.75
      let rvx2 := v.rvx * 0.65
      let rvy2 := v.rvy * 0.65
      let rvz2 := v.rvz * 0.65
      if |vy2| < 0.05 ∧ |vx2| < 0.05 ∧ |vz2| < 0.05 then
        { v with x := x1, y := FLOOR_Y + 0.5, z := z1,
                 rx := rx1, ry := ry1, rz := rz1,
                 vx := 0, vy := 0, vz := 0, rvx := 0, rvy := 0, rvz := 0 }
      else
        { v with x := x1, y := FLOOR_Y + 0.5, z := z1,
                 rx := rx1, ry := ry1, rz := rz1,
                 vx := vx2, vy := vy2, vz := vz2,
                 rvx := rvx2, rvy := rvy2, rvz := rvz2 }
    else
      { v with x := x1, y := y1, z := z1,
               rx := rx1, ry := ry1, rz := rz1, vy := vy1 }
  else v

/-- Rebuild-convergence branch of `updatePhysics` on one voxel paired with its
rebuild target (source lines 393-416).  Returns the stepped voxel together
with this voxel's contribution to the `allDone` completion flag (`true` means
it imposes no obstruction: rubble contributes `true` without being examined,
a waiting or unconverged voxel contributes `false`). -/
def rebuildStepVoxel (elapsed : ℚ) (t : RebuildTarget) (v : SimVoxel) :
    SimVoxel × Bool :=
  if t.isRubble then (v, true)
  else if elapsed < t.delay then (v, false)
  else
    let speed : ℚ := 0.12
    let x1 := v.x + (t.x - v.x) * speed
    let y1 := v.y + (t.y - v.y) * speed
    let z1 := v.z + (t.z - v.z) * speed
    let rx1 := v.rx + (0 - v.rx) * speed
    let ry1 := v.ry + (0 - v.ry) * speed
    let rz1 := v.rz + (0 - v.rz) * speed
    if (t.x - x1) * (t.x - x1) + (t.y - y1) * (t.y - y1) + (t.z - z1) * (t.z - z1) > 0.01 then
      ({ v with x := x1, y := y1, z := z1, rx := rx1, ry := ry1, rz := rz1 }, false)
    else
      ({ v with x := t.x, y := t.y, z := t.z, rx := 0, ry := 0, rz := 0,
                isFalling := false, grounded := true,
                vx := 0, vy := 0, vz := 0 }, true)

/-- A `map` that also passes the element's index, recursing from start index
`i` (used to embed `forEach((v, i) => ...)` loops whose per-slot update only
reads its own slot). -/
def mapIdxFrom (f : Nat → α → β) : Nat → List α → List β
  | _, [] => []
  | i, a :: l => f i a :: mapIdxFrom f (i + 1) l

/-- Index-passing map starting at 0. -/
def mapIdx0 (f : Nat → α → β) (l : List α) : List β := mapIdxFrom f 0 l

/-- Look up slot `i`'s rebuild target and step the voxel against it (the
`rebuild` planner always produces one entry per voxel, see
`rebuildPlan_length`; a missing entry is treated as an unexamined slot
contributing no obstruction). -/
def rebuildStepAt (e : Engine) (now : ℚ) (i : Nat) (v : SimVoxel) : SimVoxel × Bool :=
  match e.rebuildTargets[i]? with
  | some t => rebuildStepVoxel (now - e.rebuildStartTime) t v
  | none => (v, true)

/-- `updatePhysics` (source lines 388-441).  `now` stands for `Date.now()`.
In the REBUILDING branch every voxel is stepped against its entry of the
`rebuildTargets` parallel array, and if no voxel obstructed, the controller
transitions to STABLE and notifies the callback. -/
def updatePhysics (now : ℚ) (e : Engine) : Engine :=
  if e.state = AppState.REBUILDING then
    let stepped := mapIdx0 (rebuildStepAt e now) e.voxels
    if stepped.all Prod.snd then
      { e with voxels := stepped.map Prod.fst,
               state := AppState.STABLE,
               events := e.events ++ [EngineEvent.stateChange AppState.STABLE] }
    else
      { e with voxels := stepped.map Prod.fst }
  else
    { e with voxels := e.voxels.map fallStepVoxel }

/-! ## Structural integrity analyzer (`checkStructuralIntegrity`, lines 226-267)

The source rounds each coordinate with `Math.round` and keys a `Map` by the
string `"x,y,z"`; the embedding keys by the integer triple directly.
JavaScript `Math.round q = ⌊q + 1/2⌋`, which is Mathlib's `round` on `ℚ`. -/

/-- Rounded integer grid key of a voxel. -/
def keyOf (v : SimVoxel) : ℤ × ℤ × ℤ := (round v.x, round v.y, round v.z)

/-- Componentwise sum of two grid keys. -/
def addKey (a b : ℤ × ℤ × ℤ) : ℤ × ℤ × ℤ := (a.1 + b.1, a.2.1 + b.2.1, a.2.2 + b.2.2)

/-- The six axis-aligned neighbor offsets scanned by the BFS (line 246). -/
def neighborOffsets : List (ℤ × ℤ × ℤ) :=
  [(1, 0, 0), (-1, 0, 0), (0, 1, 0), (0, -1, 0), (0, 0, 1), (0, 0, -1)]

/-- Lookup in the voxel grid map built at lines 236-242: the map holds, for
each rounded key, the index of the *last* non-falling voxel inserted with that
key (`Map.set` overwrites).  Falling voxels are never inserted. -/
def mapFind (vs : List SimVoxel) (k : ℤ × ℤ × ℤ) : Option Nat :=
  (List.range vs.length).foldl
    (fun acc i =>
      match vs[i]? with
      | some v => if v.isFalling = false ∧ keyOf v = k then some i else acc
      | none => acc)
    none

/-- Ground-anchor condition of lines 229-234: not falling and resting within
1.2 units of the floor. -/
def isAnchor (v : SimVoxel) : Prop := v.isFalling = false ∧ v.y ≤ FLOOR_Y + 1.2

instance (v : SimVoxel) : Decidable (isAnchor v) := by
  unfold isAnchor; infer_instance

/-- Phase 1 of the pass (line 227): `grounded = false` for every voxel. -/
def clearGrounded (vs : List SimVoxel) : List SimVoxel :=
  vs.map (fun v => { v with grounded := false })

/-- Phase 2 (lines 229-234): mark every anchor `grounded = true`. -/
def markAnchors (vs : List SimVoxel) : List SimVoxel :=
  vs.map (fun v => if isAnchor v then { v with grounded := true } else v)

/-- Initial BFS queue: the anchor indices, pushed in index order. -/
def anchorQueue (vs : List SimVoxel) : List Nat :=
  (List.range vs.length).filter (fun i =>
    match vs[i]? with
    | some v => decide (isAnchor v)
    | none => false)

/-- Set the `grounded` flag of slot `j` to true. -/
def setGrounded (vs : List SimVoxel) (j : Nat) : List SimVoxel :=
  match vs[j]? with
  | some v => vs.set j { v with grounded := true }
  | none => vs

/-- Handle one neighbor lookup of the BFS inner loop (lines 251-259): if the
key resolves to a non-falling, not-yet-grounded voxel, ground it and push it.
`vs0` is the voxel list the grid map was built from; positions and falling
flags are not mutated between map construction and the end of the loop, so
lookups through `vs0` agree with the live map of the source. -/
def visitNbr (vs0 : List SimVoxel) (st : List SimVoxel × List Nat) (k : ℤ × ℤ × ℤ) :
    List SimVoxel × List Nat :=
  match mapFind vs0 k with
  | none => st
  | some j =>
    match st.1[j]? with
    | none => st
    | some nv =>
      if nv.isFalling = false ∧ nv.grounded = false then
        (setGrounded st.1 j, st.2 ++ [j])
      else st

/-- Process one dequeued index: scan its six neighbor keys (lines 244-260). -/
def visit (vs0 : List SimVoxel) (vs : List SimVoxel) (q : List Nat) (i : Nat) :
    List SimVoxel × List Nat :=
  match vs0[i]? with
  | none => (vs, q)
  | some v =>
    neighborOffsets.foldl (fun st d => visitNbr vs0 st (addKey (keyOf v) d)) (vs, q)

/-- The BFS worklist loop (lines 243-261), with explicit fuel.  One unit of
fuel is spent per dequeue; `checkStructuralIntegrity` supplies fuel
`2 * n + 1`, which exceeds the exact measure `queue length + number of
ungrounded voxels` that strictly decreases each iteration, so the loop always
drains its queue (`bfsLoop_drains`). -/
def bfsLoop (vs0 : List SimVoxel) : Nat → List SimVoxel → List Nat → List SimVoxel × List Nat
  | 0, vs, q => (vs, q)
  | _ + 1, vs, [] => (vs, [])
  | fuel + 1, vs, i :: rest =>
    let st := visit vs0 vs rest i
    bfsLoop vs0 fuel st.1 st.2

/-- Phase 4 (lines 262-266): every voxel left non-falling and ungrounded is
unsupported and transitions to falling with its drawn kick. -/
def triggerUnsupported (kicks : Nat → Kick) (vs : List SimVoxel) : List SimVoxel :=
  mapIdx0 (fun i v =>
    if v.isFalling = false ∧ v.grounded = false then applyKick (kicks i) v else v) vs

/-- `checkStructuralIntegrity` (lines 226-267).  `kicks i` stands for the six
`Math.random()` draws `triggerFalling` would make for slot `i`. -/
def checkStructuralIntegrity (kicks : Nat → Kick) (vs : List SimVoxel) : List SimVoxel :=
  let vs1 := markAnchors (clearGrounded vs)
  let res := bfsLoop vs1 (2 * vs.length + 1) vs1 (anchorQueue vs1)
  triggerUnsupported kicks res.1

/-- One hop of the support graph scanned by the BFS: from voxel `i`, one of
the six unit offsets applied to `i`'s rounded key resolves through the grid
map to voxel `j`.  Only non-falling voxels are in the map, so every edge
target is non-falling. -/
def edgeStep (vs : List SimVoxel) (i j : Nat) : Prop :=
  ∃ v d, vs[i]? = some v ∧ d ∈ neighborOffsets ∧ mapFind vs (addKey (keyOf v) d) = some j

/-- Reachability from some ground anchor through chains of 6-connected
neighbors on the rounded grid of non-falling voxels. -/
inductive Reaches (vs : List SimVoxel) : Nat → Prop where
  | anchor (i : Nat) (v : SimVoxel) (hv : vs[i]? = some v) (ha : isAnchor v) :
      Reaches vs i
  | step (i j : Nat) (hi : Reaches vs i) (hij : edgeStep vs i j) : Reaches vs j

/-- Forget the `grounded` flag of a voxel (the only field the BFS loop
mutates). -/
def strip (v : SimVoxel) : SimVoxel := { v with grounded := false }

/-- Two voxel lists agree everywhere except possibly on `grounded` flags. -/
def stripEq (a b : List SimVoxel) : Prop :=
  ∀ i : Nat, (a[i]?).map strip = (b[i]?).map strip

/-- Slot `j` holds a voxel currently marked grounded. -/
def groundedAt (vs : List SimVoxel) (j : Nat) : Prop :=
  ∃ w, vs[j]? = some w ∧ w.grounded = true

/-- Invariant of the BFS worklist loop over the fixed skeleton `vs0`: the
loop only toggles `grounded` flags, everything marked grounded is reachable,
everything queued is reachable, every grounded voxel no longer queued has all
its grid neighbors grounded, and anchors stay grounded. -/
structure BfsInv (vs0 : List SimVoxel) (vs : List SimVoxel) (q : List Nat) : Prop where
  hstrip : stripEq vs vs0
  hsound : ∀ j : Nat, groundedAt vs j → Reaches vs0 j
  hqreach : ∀ i ∈ q, Reaches vs0 i
  hclosed : ∀ j : Nat, groundedAt vs j → j ∉ q →
    ∀ j2 : Nat, edgeStep vs0 j j2 → groundedAt vs j2
  hanchor : ∀ (i : Nat) (v : SimVoxel), vs[i]? = some v → isAnchor v → v.grounded = true

/-- The C1 invariant: no voxel is simultaneously falling and grounded. -/
def flagsOK (vs : List SimVoxel) : Prop :=
  ∀ v ∈ vs, ¬(v.isFalling = true ∧ v.grounded = true)

/-! ## Rebuild planner (`rebuild`, lines 348-386) -/

/-- Squared perceptually weighted color distance; the source's `getColorDist`
(lines 340-346) is the square root of this, used only in comparisons. -/
def getColorDistSq (c1 c2 : Color) : ℚ :=
  let r := (c1.r - c2.r) * 0.3
  let g := (c1.g - c2.g) * 0.59
  let b := (c1.b - c2.b) * 0.11
  r * r + g * g + b * b

/-- Squared initial best distance (`let bestDist = 9999`, line 355). -/
def bigDistSq : ℚ := 9999 * 9999

/-- Squared near-exact-match threshold (`if (d < 0.01) break`, line 363). -/
def epsSq : ℚ := 1 / 10000

/-- Entry of the mutable candidate pool (`available`, line 351). -/
structure PoolEntry where
  index : Nat
  color : Color
  taken : Bool
deriving Repr, DecidableEq

/-- The scan loop of lines 355-365, recursing down the pool suffix: `i` is the
pool index of the head entry, `bd` the running best (squared) distance, `best`
the running best pool index (`-1` embedded as `none`).  A strict improvement
below the near-match threshold stops the scan (`break`). -/
def scanFrom (tc : Color) : List PoolEntry → Nat → ℚ → Option Nat → Option Nat
  | [], _, _, best => best
  | e :: rest, i, bd, best =>
    if e.taken then scanFrom tc rest (i + 1) bd best
    else
      let d := getColorDistSq e.color tc
      if d < bd then
        if d < epsSq then some i else scanFrom tc rest (i + 1) d (some i)
      else scanFrom tc rest (i + 1) bd best

/-- Full pool scan for one target color. -/
def scanPool (available : List PoolEntry) (tc : Color) : Option Nat :=
  scanFrom tc available 0 bigDistSq none

/-- Enumerate a pool suffix with explicit pool indices starting at `i`. -/
def enumFrom (i : Nat) : List PoolEntry → List (Nat × PoolEntry)
  | [] => []
  | e :: rest => (i, e) :: enumFrom (i + 1) rest

/-- The untaken pool entries, in pool order, with their pool indices. -/
def untakenEnum (i : Nat) (l : List PoolEntry) : List (Nat × PoolEntry) :=
  (enumFrom i l).filter (fun p => ! p.2.taken)

/-- Truncate a scan list at (and including) the first near-exact match. -/
def takeUpToMatch (tc : Color) : List (Nat × PoolEntry) → List (Nat × PoolEntry)
  | [] => []
  | p :: rest =>
    if getColorDistSq p.2.color tc < epsSq then [p]
    else p :: takeUpToMatch tc rest

/-- First-found minimum-distance entry of a scan list, with its distance
(ties broken toward the earlier entry). -/
def argminFirst (tc : Color) : List (Nat × PoolEntry) → Option (Nat × ℚ)
  | [] => none
  | p :: rest =>
    match argminFirst tc rest with
    | none => some (p.1, getColorDistSq p.2.color tc)
    | some (j, d') =>
      if getColorDistSq p.2.color tc ≤ d' then some (p.1, getColorDistSq p.2.color tc)
      else some (j, d')

/-- Resolve an optional (index, distance) selection against a fallback and a
distance bound (helper used to state the scan characterization). -/
def selectWith (best : Option Nat) (bd : ℚ) : Option (Nat × ℚ) → Option Nat
  | none => best
  | some (j, d) => if d < bd then some j else best

/-- Selection rule in the words of the spec (the second definition of a
refinement pair, to be compared with the source-derived `scanPool`): scan the
untaken pool in order, stop the scan early when a distance below the
near-match threshold is found, and select the entry of minimum color distance
over the scanned prefix, ties broken by scan order (first-found minimum). -/
def specSelect (available : List PoolEntry) (tc : Color) : Option Nat :=
  match argminFirst tc (takeUpToMatch tc (untakenEnum 0 available)) with
  | none => none
  | some (j, _) => some j

/-- All three channels of a color lie in `[0, 1]` (as every engine color
does: `THREE.Color` channels, including the jittered ones). -/
def ColorInUnit (c : Color) : Prop :=
  0 ≤ c.r ∧ c.r ≤ 1 ∧ 0 ≤ c.g ∧ c.g ≤ 1 ∧ 0 ≤ c.b ∧ c.b ≤ 1

/-- Invariant of the planner fold (pool of `n` slots, `c` targets matched so
far): the two parallel arrays keep their length, pool entries carry their own
slot index and unit-range colors, a pool entry is taken exactly when its slot
already holds an assignment, every recorded assignment is non-rubble, and the
taken/assigned counts both equal the number of targets matched. -/
structure PlanInv (n c : Nat) (st : List PoolEntry × List (Option RebuildTarget)) : Prop where
  len1 : st.1.length = n
  len2 : st.2.length = n
  idx : ∀ (j : Nat) (e : PoolEntry), st.1[j]? = some e → e.index = j
  colors : ∀ e ∈ st.1, ColorInUnit e.color
  align : ∀ (j : Nat) (e : PoolEntry) (m : Option RebuildTarget),
    st.1[j]? = some e → st.2[j]? = some m → (e.taken = true ↔ m.isSome = true)
  shape : ∀ (j : Nat) (u : RebuildTarget), st.2[j]? = some (some u) → u.isRubble = false
  count1 : st.1.countP (fun e => e.taken) = c
  count2 : st.2.countP (fun m => m.isSome) = c

/-- Activation delay assigned to a matched target at height `y`
(lines 368-372): `max(0, (y - FLOOR_Y) / 15) * 800`. -/
def delayOf (y : ℚ) : ℚ := max 0 ((y - FLOOR_Y) / 15) * 800

/-- Process one target of the planner loop (lines 354-374): scan the pool; on
a match, take the winning pool entry and record the target with its
height-derived delay in that entry's voxel slot. -/
def applyTarget (st : List PoolEntry × List (Option RebuildTarget)) (t : VoxelData) :
    List PoolEntry × List (Option RebuildTarget) :=
  match scanPool st.1 t.color with
  | none => st
  | some bi =>
    match st.1[bi]? with
    | none => st
    | some entry =>
      (st.1.set bi { entry with taken := true },
       st.2.set entry.index
         (some { x := t.x, y := t.y, z := t.z, delay := delayOf t.y, isRubble := false }))

/-- Lines 376-383: every voxel slot with no assignment becomes rubble, frozen
at its current position with delay 0.  The recursion walks the voxel list and
the assignment list in parallel (a missing assignment entry is falsy in the
source's `if (!mappings[i])`, exactly like a recorded `null`). -/
def fillRubble : List SimVoxel → List (Option RebuildTarget) → List RebuildTarget
  | [], _ => []
  | v :: vs, [] =>
    { x := v.x, y := v.y, z := v.z, delay := 0, isRubble := true } :: fillRubble vs []
  | v :: vs, m :: ms =>
    (match m with
      | some t => t
      | none => { x := v.x, y := v.y, z := v.z, delay := 0, isRubble := true }) ::
      fillRubble vs ms

/-- The Rebuild Planner: the pure assignment computation of `rebuild`
(lines 351-383), one `RebuildTarget` per existing voxel slot. -/
def rebuildPlan (vs : List SimVoxel) (targetModel : List VoxelData) : List RebuildTarget :=
  let available := mapIdx0 (fun i v => PoolEntry.mk i v.color false) vs
  let init : List (Option RebuildTarget) := List.replicate vs.length none
  let res := targetModel.foldl applyTarget (available, init)
  fillRubble vs res.2

/-! ## Simulation controller operations -/

/-- `rebuild(targetModel)` (lines 348-386): unconditionally (no state guard)
enters REBUILDING, notifies the callback, and replaces the assignment array
and the rebuild start timestamp.  `now` stands for `Date.now()`. -/
def rebuild (now : ℚ) (targetModel : List VoxelData) (e : Engine) : Engine :=
  { e with state := AppState.REBUILDING,
           events := e.events ++ [EngineEvent.stateChange AppState.REBUILDING],
           rebuildTargets := rebuildPlan e.voxels targetModel,
           rebuildStartTime := now }

/-- `dismantle()` (lines 328-338): a no-op unless STABLE; otherwise enters
DISMANTLING, notifies, and kicks every voxel with a larger scatter velocity
(the scatter triple overwrites the linear kick of `triggerFalling`). -/
def dismantle (kicks : Nat → Kick) (scatter : Nat → ℚ × ℚ × ℚ) (e : Engine) : Engine :=
  if e.state ≠ AppState.STABLE then e
  else
    { e with state := AppState.DISMANTLING,
             events := e.events ++ [EngineEvent.stateChange AppState.DISMANTLING],
             voxels := mapIdx0 (fun i v =>
               let v1 := applyKick (kicks i) v
               { v1 with vx := (scatter i).1, vy := (scatter i).2.1, vz := (scatter i).2.2 })
               e.voxels }

/-- `createVoxels` (lines 287-297): fresh voxels from input data, at rest,
grounded, with zero rotation and velocity.  `jit i` stands for the external
`THREE.Color` construction plus the random `offsetHSL` lightness jitter. -/
def createVoxels (jit : Nat → Color → Color) (data : List VoxelData) : List SimVoxel :=
  mapIdx0 (fun i d =>
    { id := i, x := d.x, y := d.y, z := d.z, color := jit i d.color,
      vx := 0, vy := 0, vz := 0, rx := 0, ry := 0, rz := 0,
      rvx := 0, rvy := 0, rvz := 0, isFalling := false, grounded := true }) data

/-- `loadInitialModel` (lines 269-274): replace the store, report the count,
and reset the controller to STABLE. -/
def loadInitialModel (jit : Nat → Color → Color) (data : List VoxelData) (e : Engine) : Engine :=
  let vs := createVoxels jit data
  { e with voxels := vs,
           state := AppState.STABLE,
           events := e.events ++
             [EngineEvent.countChange vs.length, EngineEvent.stateChange AppState.STABLE] }

/-- One externally triggered simulation step, with all randomness and clock
reads as explicit data. -/
inductive SimOp where
  | trigger (k : Kick) (i : Nat)
  | integrity (kicks : Nat → Kick)
  | dismantleOp (kicks : Nat → Kick) (scatter : Nat → ℚ × ℚ × ℚ)
  | rebuildOp (now : ℚ) (targets : List VoxelData)
  | physics (now : ℚ)
  | load (jit : Nat → Color → Color) (data : List VoxelData)

/-- Apply one simulation step to the engine. -/
def applyOp (e : Engine) : SimOp → Engine
  | SimOp.trigger k i => { e with voxels := triggerFalling k e.voxels i }
  | SimOp.integrity kicks => { e with voxels := checkStructuralIntegrity kicks e.voxels }
  | SimOp.dismantleOp kicks scatter => dismantle kicks scatter e
  | SimOp.rebuildOp now targets => rebuild now targets e
  | SimOp.physics now => updatePhysics now e
  | SimOp.load jit data => loadInitialModel jit data e

/-- Run a sequence of simulation steps. -/
def runOps (e : Engine) (ops : List SimOp) : Engine := ops.foldl applyOp e

/-! ## Concrete data used by counterexamples and witnesses -/

/-- A voxel at rest at the origin. -/
def zeroVoxel : SimVoxel :=
  { id := 0, x := 0, y := 0, z := 0, color := ⟨0, 0, 0⟩,
    vx := 0, vy := 0, vz := 0, rx := 0, ry := 0, rz := 0,
    rvx := 0, rvy := 0, rvz := 0, isFalling := false, grounded := true }

/-- A falling voxel just above the floor plane with zero velocity: gravity
pushes it across `FLOOR_Y + 0.5` this step, and the bounce leaves every
linear velocity below `0.05`, so the rest-detection snap fires. -/
def slowFaller : SimVoxel :=
  { zeroVoxel with y := -11.45, isFalling := true, grounded := false }

/-- An engine in the STABLE state containing only `slowFaller`. -/
def slowFallerEngine : Engine :=
  { voxels := [slowFaller], rebuildTargets := [], rebuildStartTime := 0,
    state := AppState.STABLE, events := [] }

/-- A falling voxel high above the floor whose vertical speed drops below
`0.05` during the step (from `0.06` to `0.008`) without touching the floor. -/
def driftFaller : SimVoxel :=
  { zeroVoxel with vy := 0.06, isFalling := true, grounded := false }

/-- An engine in the STABLE state containing only `driftFaller`. -/
def driftFallerEngine : Engine :=
  { voxels := [driftFaller], rebuildTargets := [], rebuildStartTime := 0,
    state := AppState.STABLE, events := [] }

/-- A falling voxel just above the floor with a large downward velocity: it
bounces this step and the bounce leaves `|vy| = 0.44184 ≥ 0.05`, so the
rest-detection snap does not fire. -/
def fastFaller : SimVoxel :=
  { zeroVoxel with y := -11, vy := -1, isFalling := true, grounded := false }

/-- An engine in the STABLE state containing only `fastFaller`. -/
def fastFallerEngine : Engine :=
  { voxels := [fastFaller], rebuildTargets := [], rebuildStartTime := 0,
    state := AppState.DISMANTLING, events := [] }

/-- A fixed kick used by witnesses. -/
def witKick : Kick := ⟨1, 2, 3, 4, 5, 6⟩

/-- First voxel of the spec's end-to-end scenario, resting at `(0,-12,0)`. -/
def towerV0 : SimVoxel := { zeroVoxel with id := 0, x := 0, y := -12, z := 0 }

/-- Second scenario voxel, resting at `(1,-12,0)`. -/
def towerV1 : SimVoxel := { zeroVoxel with id := 1, x := 1, y := -12, z := 0, color := ⟨1, 0, 0⟩ }

/-- Third scenario voxel, resting at `(0,-11,0)`. -/
def towerV2 : SimVoxel := { zeroVoxel with id := 2, x := 0, y := -11, z := 0, color := ⟨0, 1, 0⟩ }

/-- Fourth scenario voxel, resting at `(5,-11,0)`. -/
def towerV3 : SimVoxel := { zeroVoxel with id := 3, x := 5, y := -11, z := 0, color := ⟨0, 0, 1⟩ }

/-- The four-voxel resting configuration of the spec's end-to-end scenario:
`(0,-12,0)`, `(1,-12,0)`, `(0,-11,0)`, `(5,-11,0)` on floor `-12`. -/
def towerVoxels : List SimVoxel := [towerV0, towerV1, towerV2, towerV3]

/-- An engine holding the tower configuration, in the STABLE state. -/
def towerEngine : Engine :=
  { voxels := towerVoxels, rebuildTargets := [], rebuildStartTime := 0,
    state := AppState.STABLE, events := [] }

/-- A single rebuild target above the floor, used by planner witnesses. -/
def witTarget : VoxelData := ⟨9, 9, 9, ⟨0, 1, 0⟩⟩

/-- A second, lower rebuild target used by planner witnesses. -/
def witTargetLow : VoxelData := ⟨0, -12, 0, ⟨1, 0, 0⟩⟩

/-- A two-entry untaken pool used by scan witnesses. -/
def witPool : List PoolEntry := [⟨0, ⟨0, 0, 0⟩, false⟩, ⟨1, ⟨1, 0, 0⟩, false⟩]

/-- A target color used by scan witnesses. -/
def witColor : Color := ⟨1, 0, 0⟩

/-- The tower engine mid-rebuild with a single rubble assignment. -/
def rubbleEngine : Engine :=
  { towerEngine with state := AppState.REBUILDING, rebuildTargets := [⟨0, 0, 0, 0, true⟩] }

/-! ## Basic structure lemmas -/

theorem mapIdxFrom_getElem? (f : Nat → α → β) (i k : Nat) (l : List α) :
    (mapIdxFrom f i l)[k]? = (l[k]?).map (f (i + k)) := by
  induction l generalizing i k with
  | nil => simp [mapIdxFrom]
  | cons a l ih =>
    cases k with
    | zero => simp [mapIdxFrom]
    | succ k =>
      simp only [mapIdxFrom, List.getElem?_cons_succ, ih (i + 1) k]
      ring_nf

theorem mapIdx0_getElem? (f : Nat → α → β) (k : Nat) (l : List α) :
    (mapIdx0 f l)[k]? = (l[k]?).map (f k) := by
  simpa using mapIdxFrom_getElem? f 0 k l

theorem mapIdxFrom_length (f : Nat → α → β) (i : Nat) (l : List α) :
    (mapIdxFrom f i l).length = l.length := by
  induction l generalizing i with
  | nil => rfl
  | cons a l ih => simp [mapIdxFrom, ih]

theorem mapIdx0_length (f : Nat → α → β) (l : List α) :
    (mapIdx0 f l).length = l.length := mapIdxFrom_length f 0 l

theorem mapIdxFrom_eq_map_of (f : Nat → α → β) (g : α → β) (i : Nat) (l : List α)
    (h : ∀ k a, l[k]? = some a → f (i + k) a = g a) :
    mapIdxFrom f i l = l.map g := by
  induction l generalizing i with
  | nil => rfl
  | cons a l ih =>
    simp only [mapIdxFrom, List.map_cons]
    have h0 : f i a = g a := by simpa using h 0 a (by simp)
    rw [h0, ih (i + 1) ?_]
    intro k b hb
    have := h (k + 1) b (by simpa using hb)
    simpa [Nat.add_assoc, Nat.add_comm 1 k] using this

theorem mapIdx0_eq_map_of (f : Nat → α → β) (g : α → β) (l : List α)
    (h : ∀ k a, l[k]? = some a → f k a = g a) :
    mapIdx0 f l = l.map g := by
  apply mapIdxFrom_eq_map_of
  simpa using h

theorem foldl_inv {σ τ : Type _} {P : σ → Prop} (f : σ → τ → σ) (l : List τ) (init : σ)
    (h0 : P init) (hstep : ∀ s x, x ∈ l → P s → P (f s x)) : P (l.foldl f init) := by
  induction l generalizing init with
  | nil => exact h0
  | cons a l ih =>
    exact ih (f init a) (hstep init a (List.mem_cons_self a l) h0)
      (fun s x hx => hstep s x (List.mem_cons_of_mem a hx))

/-! ## Unfolding lemmas for `updatePhysics` -/

theorem updatePhysics_voxels_free (now : ℚ) (e : Engine)
    (h : e.state ≠ AppState.REBUILDING) :
    (updatePhysics now e).voxels = e.voxels.map fallStepVoxel := by
  unfold updatePhysics
  rw [if_neg h]

theorem updatePhysics_voxels_rebuilding (now : ℚ) (e : Engine)
    (h : e.state = AppState.REBUILDING) :
    (updatePhysics now e).voxels = (mapIdx0 (rebuildStepAt e now) e.voxels).map Prod.fst := by
  unfold updatePhysics
  rw [if_pos h]
  by_cases hc : (mapIdx0 (rebuildStepAt e now) e.voxels).all Prod.snd <;> simp [hc]

theorem updatePhysics_state_rebuilding (now : ℚ) (e : Engine)
    (h : e.state = AppState.REBUILDING) :
    (updatePhysics now e).state =
      (if (mapIdx0 (rebuildStepAt e now) e.voxels).all Prod.snd then AppState.STABLE
       else AppState.REBUILDING) := by
  unfold updatePhysics
  rw [if_pos h]
  by_cases hc : (mapIdx0 (rebuildStepAt e now) e.voxels).all Prod.snd <;> simp [hc, h]

theorem updatePhysics_events_rebuilding (now : ℚ) (e : Engine)
    (h : e.state = AppState.REBUILDING) :
    (updatePhysics now e).events =
      (if (mapIdx0 (rebuildStepAt e now) e.voxels).all Prod.snd then
        e.events ++ [EngineEvent.stateChange AppState.STABLE]
       else e.events) := by
  unfold updatePhysics
  rw [if_pos h]
  by_cases hc : (mapIdx0 (rebuildStepAt e now) e.voxels).all Prod.snd <;> simp [hc]

/-! ## C3: floor collision -/

/-- C3 (counterexample).  The claim states that *every* falling particle
crossing below `floor + 0.5` during a non-REBUILDING physics step ends the
step with vertical velocity `-0.42` times the pre-bounce vertical velocity
and angular velocities attenuated by `0.65`.  `slowFaller` (zero velocity,
just above the floor plane) is in the claim's scope — falling, not
REBUILDING, and it crosses the plane this step — yet it ends the step with
vertical velocity `0`, not `-0.42 · (-0.052) = 0.02184`: the rest-detection
snap of source lines 433-436 overrides the bounce velocities. -/
theorem floor_bounce_claim_counterexample :
    slowFallerEngine.state ≠ AppState.REBUILDING ∧
    slowFaller.isFalling = true ∧
    slowFaller.y + (slowFaller.vy - 0.052) < FLOOR_Y + 0.5 ∧
    ((updatePhysics 0 slowFallerEngine).voxels[0]?.map SimVoxel.vy) = some 0 ∧
    (0 : ℚ) ≠ (slowFaller.vy - 0.052) * (-0.42) := by
  refine ⟨by decide, by decide, by norm_num [slowFaller, zeroVoxel, FLOOR_Y], ?_,
    by norm_num [slowFaller, zeroVoxel]⟩
  rw [updatePhysics_voxels_free 0 slowFallerEngine (by decide)]
  norm_num [slowFallerEngine, slowFaller, zeroVoxel, fallStepVoxel, FLOOR_Y, abs_lt]

/-- C3 (amended).  For every falling particle whose position crosses below
`floor + 0.5` during a physics step while the controller is not REBUILDING,
*provided the rest-detection does not fire* (not all post-attenuation linear
components are below `0.05` in magnitude), the step ends with vertical
velocity exactly `-0.42` times the pre-bounce (post-gravity) vertical
velocity, `y` clamped to exactly `floor + 0.5`, horizontal velocities
attenuated by `0.75`, and angular velocities attenuated by `0.65`. -/
theorem floor_bounce_attenuation (now : ℚ) (e : Engine) (i : Nat) (v : SimVoxel)
    (hstate : e.state ≠ AppState.REBUILDING)
    (hv : e.voxels[i]? = some v)
    (hfall : v.isFalling = true)
    (hcross : v.y + (v.vy - 0.052) < FLOOR_Y + 0.5)
    (hnosnap : ¬(|(v.vy - 0.052) * (-0.42)| < 0.05 ∧ |v.vx * 0.75| < 0.05 ∧
                 |v.vz * 0.75| < 0.05)) :
    ∃ w, (updatePhysics now e).voxels[i]? = some w ∧
      w.vy = (v.vy - 0.052) * (-0.42) ∧
      w.y = FLOOR_Y + 0.5 ∧
      w.vx = v.vx * 0.75 ∧ w.vz = v.vz * 0.75 ∧
      w.rvx = v.rvx * 0.65 ∧ w.rvy = v.rvy * 0.65 ∧ w.rvz = v.rvz * 0.65 := by
  have hcalc : fallStepVoxel v =
      { v with x := v.x + v.vx, y := FLOOR_Y + 0.5, z := v.z + v.vz,
               rx := v.rx + v.rvx, ry := v.ry + v.rvy, rz := v.rz + v.rvz,
               vx := v.vx * 0.75, vy := (v.vy - 0.052) * (-0.42), vz := v.vz * 0.75,
               rvx := v.rvx * 0.65, rvy := v.rvy * 0.65, rvz := v.rvz * 0.65 } := by
    unfold fallStepVoxel
    rw [if_pos hfall, if_pos hcross, if_neg hnosnap]
  refine ⟨fallStepVoxel v, ?_, by rw [hcalc], by rw [hcalc], by rw [hcalc],
    by rw [hcalc], by rw [hcalc], by rw [hcalc], by rw [hcalc]⟩
  rw [updatePhysics_voxels_free now e hstate, List.getElem?_map, hv]
  rfl

/-- C3 (witness): the amended theorem applied to `fastFaller`, whose bounce
velocity `0.44184` defeats the rest snap. -/
theorem floor_bounce_attenuation_witness :
    ∃ w, (updatePhysics 0 fastFallerEngine).voxels[0]? = some w ∧
      w.vy = (fastFaller.vy - 0.052) * (-0.42) ∧
      w.y = FLOOR_Y + 0.5 ∧
      w.vx = fastFaller.vx * 0.75 ∧ w.vz = fastFaller.vz * 0.75 ∧
      w.rvx = fastFaller.rvx * 0.65 ∧ w.rvy = fastFaller.rvy * 0.65 ∧
      w.rvz = fastFaller.rvz * 0.65 :=
  floor_bounce_attenuation 0 fastFallerEngine 0 fastFaller (by decide) rfl
    (by decide) (by norm_num [fastFaller, zeroVoxel, FLOOR_Y])
    (by norm_num [fastFaller, zeroVoxel, abs_lt])

/-! ## C4: rest-detection snap -/

/-- C4 (counterexample).  The claim states that once all three linear
velocity components of a falling particle drop below `0.05` in magnitude
during a physics step, all six velocity components become exactly `0` at the
end of that step.  `driftFaller` is falling far above the floor; its vertical
speed drops from `0.06` to `0.008` during the step (all three components end
below `0.05` in magnitude), yet its end-of-step vertical velocity is
`0.008 ≠ 0`: the source only performs the rest snap inside the floor-collision
branch (lines 427-437), never in mid-air. -/
theorem rest_snap_claim_counterexample :
    driftFaller.isFalling = true ∧
    driftFallerEngine.state ≠ AppState.REBUILDING ∧
    |driftFaller.vx| < 0.05 ∧ |driftFaller.vy - 0.052| < 0.05 ∧ |driftFaller.vz| < 0.05 ∧
    ((updatePhysics 0 driftFallerEngine).voxels[0]?.map SimVoxel.vy) = some 0.008 ∧
    (0.008 : ℚ) ≠ 0 := by
  refine ⟨by decide, by decide, by norm_num [driftFaller, zeroVoxel, abs_lt],
    by norm_num [driftFaller, zeroVoxel, abs_lt], by norm_num [driftFaller, zeroVoxel, abs_lt],
    ?_, by norm_num⟩
  rw [updatePhysics_voxels_free 0 driftFallerEngine (by decide)]
  norm_num [driftFallerEngine, driftFaller, zeroVoxel, fallStepVoxel, FLOOR_Y, abs_lt]

/-- C4 (amended).  For every falling particle, when a floor collision occurs
during a non-REBUILDING physics step and, after the bounce attenuation, all
three linear velocity components are below `0.05` in magnitude, all six
velocity components (linear and angular) become exactly `0` at the end of
that step, and the particle nonetheless remains `isFalling = true` (it is
never re-grounded by this path). -/
theorem rest_snap_on_bounce (now : ℚ) (e : Engine) (i : Nat) (v : SimVoxel)
    (hstate : e.state ≠ AppState.REBUILDING)
    (hv : e.voxels[i]? = some v)
    (hfall : v.isFalling = true)
    (hcross : v.y + (v.vy - 0.052) < FLOOR_Y + 0.5)
    (hsnap : |(v.vy - 0.052) * (-0.42)| < 0.05 ∧ |v.vx * 0.75| < 0.05 ∧
             |v.vz * 0.75| < 0.05) :
    ∃ w, (updatePhysics now e).voxels[i]? = some w ∧
      w.vx = 0 ∧ w.vy = 0 ∧ w.vz = 0 ∧
      w.rvx = 0 ∧ w.rvy = 0 ∧ w.rvz = 0 ∧
      w.isFalling = true ∧ w.grounded = v.grounded := by
  have hcalc : fallStepVoxel v =
      { v with x := v.x + v.vx, y := FLOOR_Y + 0.5, z := v.z + v.vz,
               rx := v.rx + v.rvx, ry := v.ry + v.rvy, rz := v.rz + v.rvz,
               vx := 0, vy := 0, vz := 0, rvx := 0, rvy := 0, rvz := 0 } := by
    unfold fallStepVoxel
    rw [if_pos hfall, if_pos hcross, if_pos hsnap]
  refine ⟨fallStepVoxel v, ?_, by rw [hcalc], by rw [hcalc], by rw [hcalc],
    by rw [hcalc], by rw [hcalc], by rw [hcalc], by rw [hcalc, hfall], by rw [hcalc]⟩
  rw [updatePhysics_voxels_free now e hstate, List.getElem?_map, hv]
  rfl

/-- C4 (witness): the amended theorem applied to `slowFaller`. -/
theorem rest_snap_on_bounce_witness :
    ∃ w, (updatePhysics 0 slowFallerEngine).voxels[0]? = some w ∧
      w.vx = 0 ∧ w.vy = 0 ∧ w.vz = 0 ∧
      w.rvx = 0 ∧ w.rvy = 0 ∧ w.rvz = 0 ∧
      w.isFalling = true ∧ w.grounded = slowFaller.grounded :=
  rest_snap_on_bounce 0 slowFallerEngine 0 slowFaller (by decide) rfl
    (by decide) (by norm_num [slowFaller, zeroVoxel, FLOOR_Y])
    (by norm_num [slowFaller, zeroVoxel, abs_lt])

/-! ## C8: rubble particles are untouched while REBUILDING -/

/-- C8.  During every physics step in state REBUILDING, a voxel whose rebuild
assignment is a rubble marker is left entirely unchanged: the stepped voxel
equals the original in every field (position, rotation, all velocity
components, color, flags). -/
theorem rubble_untouched (now : ℚ) (e : Engine) (i : Nat) (t : RebuildTarget) (v : SimVoxel)
    (hstate : e.state = AppState.REBUILDING)
    (ht : e.rebuildTargets[i]? = some t)
    (hr : t.isRubble = true)
    (hv : e.voxels[i]? = some v) :
    (updatePhysics now e).voxels[i]? = some v := by
  rw [updatePhysics_voxels_rebuilding now e hstate, List.getElem?_map, mapIdx0_getElem?,
    hv]
  simp [rebuildStepAt, ht, rebuildStepVoxel, hr]

/-- C8 (witness): a rubble assignment over the tower engine is untouched. -/
theorem rubble_untouched_witness :
    (updatePhysics 3
      { towerEngine with state := AppState.REBUILDING,
                         rebuildTargets := [⟨0, 0, 0, 0, true⟩] }).voxels[0]? =
      some towerV0 :=
  rubble_untouched 3
    { towerEngine with state := AppState.REBUILDING, rebuildTargets := [⟨0, 0, 0, 0, true⟩] }
    0 ⟨0, 0, 0, 0, true⟩ towerV0 rfl rfl rfl rfl

/-! ## C9: `rebuild` is unguarded and never a no-op -/

/-- C9.  Calling `rebuild` from any controller state — the engine `e` is
arbitrary, including STABLE with no prior dismantle — unconditionally sets the
state to REBUILDING, appends exactly one state-change notification to the
callback log (so the call is observably never a no-op), and wholly replaces
the assignment array with the planner's output and the rebuild-start
timestamp with the current clock; by contrast `dismantle` is guarded and is a
no-op in any state other than STABLE. -/
theorem rebuild_unconditional (now : ℚ) (targets : List VoxelData) (e : Engine) :
    (rebuild now targets e).state = AppState.REBUILDING ∧
    (rebuild now targets e).events =
      e.events ++ [EngineEvent.stateChange AppState.REBUILDING] ∧
    (rebuild now targets e).events.length = e.events.length + 1 ∧
    (rebuild now targets e).rebuildTargets = rebuildPlan e.voxels targets ∧
    (rebuild now targets e).rebuildStartTime = now ∧
    (∀ kicks scatter, e.state ≠ AppState.STABLE → dismantle kicks scatter e = e) := by
  refine ⟨rfl, rfl, by simp [rebuild], rfl, rfl, ?_⟩
  intro kicks scatter hns
  unfold dismantle
  rw [if_pos hns]

/-- C9 (witness): `rebuild` on the tower engine forced into the REBUILDING
state (no prior dismantle), with the guarded-`dismantle` contrast discharged
at a non-STABLE engine. -/
theorem rebuild_unconditional_witness :
    (rebuild 7 [witTarget] fastFallerEngine).state = AppState.REBUILDING ∧
    (rebuild 7 [witTarget] fastFallerEngine).events =
      fastFallerEngine.events ++ [EngineEvent.stateChange AppState.REBUILDING] ∧
    (rebuild 7 [witTarget] fastFallerEngine).events.length =
      fastFallerEngine.events.length + 1 ∧
    (rebuild 7 [witTarget] fastFallerEngine).rebuildTargets =
      rebuildPlan fastFallerEngine.voxels [witTarget] ∧
    (rebuild 7 [witTarget] fastFallerEngine).rebuildStartTime = 7 ∧
    dismantle (fun _ => witKick) (fun _ => (0, 0, 0)) fastFallerEngine = fastFallerEngine := by
  have h := rebuild_unconditional 7 [witTarget] fastFallerEngine
  exact ⟨h.1, h.2.1, h.2.2.1, h.2.2.2.1, h.2.2.2.2.1,
    h.2.2.2.2.2 (fun _ => witKick) (fun _ => (0, 0, 0)) (by decide)⟩

/-! ## Planner structure lemmas -/

theorem fillRubble_length (vs : List SimVoxel) :
    ∀ ms : List (Option RebuildTarget), (fillRubble vs ms).length = vs.length := by
  induction vs with
  | nil => intro ms; cases ms <;> rfl
  | cons v vs ih => intro ms; cases ms <;> simp [fillRubble, ih]

theorem fillRubble_getElem? (vs : List SimVoxel) :
    ∀ (ms : List (Option RebuildTarget)) (i : Nat),
      (fillRubble vs ms)[i]? = (vs[i]?).map (fun v =>
        match ms[i]? with
        | some (some t) => t
        | _ => { x := v.x, y := v.y, z := v.z, delay := 0, isRubble := true }) := by
  induction vs with
  | nil => intro ms i; cases ms <;> simp [fillRubble]
  | cons v vs ih =>
    intro ms i
    cases ms with
    | nil =>
      cases i with
      | zero => simp [fillRubble]
      | succ i => simpa [fillRubble] using ih [] i
    | cons m ms =>
      cases i with
      | zero => cases m <;> simp [fillRubble]
      | succ i => simpa [fillRubble] using ih ms i

theorem rebuildPlan_length (vs : List SimVoxel) (ts : List VoxelData) :
    (rebuildPlan vs ts).length = vs.length := by
  unfold rebuildPlan
  exact fillRubble_length _ _

theorem fillRubble_all_none (vs : List SimVoxel) :
    ∀ k, vs.length ≤ k → fillRubble vs (List.replicate k none) =
      vs.map (fun v => { x := v.x, y := v.y, z := v.z, delay := 0, isRubble := true }) := by
  induction vs with
  | nil => intro k _; cases k <;> rfl
  | cons v vs ih =>
    intro k hk
    cases k with
    | zero => exact absurd hk (by simp)
    | succ k =>
      simp only [List.replicate, fillRubble, List.map_cons]
      rw [ih k (by simpa using hk)]

theorem rebuildPlan_nil (vs : List SimVoxel) :
    rebuildPlan vs [] =
      vs.map (fun v => { x := v.x, y := v.y, z := v.z, delay := 0, isRubble := true }) := by
  unfold rebuildPlan
  simp only [List.foldl_nil]
  exact fillRubble_all_none vs vs.length le_rfl

/-! ## C10: rebuilding toward an empty target list -/

/-- C10.  If `rebuild` is invoked with an empty target list, every existing
particle's assignment is a rubble marker keeping its current position with
delay 0, and on the very next physics step the completion check (vacuously
satisfied over the zero non-rubble assignments) transitions the controller
from REBUILDING back to STABLE, with every particle frozen exactly where it
was and the two state-change notifications emitted in order. -/
theorem rebuild_empty_targets (now now2 : ℚ) (e : Engine) :
    (∀ (i : Nat) (v : SimVoxel), e.voxels[i]? = some v →
      (rebuild now [] e).rebuildTargets[i]? =
        some ({ x := v.x, y := v.y, z := v.z, delay := 0, isRubble := true } : RebuildTarget)) ∧
    (updatePhysics now2 (rebuild now [] e)).state = AppState.STABLE ∧
    (updatePhysics now2 (rebuild now [] e)).voxels = e.voxels ∧
    (updatePhysics now2 (rebuild now [] e)).events =
      e.events ++ [EngineEvent.stateChange AppState.REBUILDING,
                   EngineEvent.stateChange AppState.STABLE] := by
  have hplan : (rebuild now [] e).rebuildTargets =
      e.voxels.map (fun v => { x := v.x, y := v.y, z := v.z, delay := 0,
                               isRubble := true : RebuildTarget }) := by
    show rebuildPlan e.voxels [] = _
    exact rebuildPlan_nil e.voxels
  have hstep : mapIdx0 (rebuildStepAt (rebuild now [] e) now2) (rebuild now [] e).voxels =
      e.voxels.map (fun a => (a, true)) := by
    apply mapIdx0_eq_map_of
    intro k a ha
    unfold rebuildStepAt
    rw [hplan, List.getElem?_map]
    have ha' : (rebuild now [] e).voxels[k]? = some a := ha
    rw [show (rebuild now [] e).voxels = e.voxels from rfl] at ha'
    rw [ha']
    simp [rebuildStepVoxel]
  have hall : (mapIdx0 (rebuildStepAt (rebuild now [] e) now2) (rebuild now [] e).voxels).all
      Prod.snd = true := by
    rw [hstep]
    refine List.all_eq_true.2 (fun x hx => ?_)
    rcases List.mem_map.1 hx with ⟨a, -, rfl⟩
    rfl
  refine ⟨?_, ?_, ?_, ?_⟩
  · intro i v hv
    rw [hplan, List.getElem?_map, hv]
    rfl
  · rw [updatePhysics_state_rebuilding now2 _ rfl, if_pos hall]
  · rw [updatePhysics_voxels_rebuilding now2 _ rfl, hstep, List.map_map]
    have hcomp : (Prod.fst ∘ fun a : SimVoxel => (a, true)) = fun a => a := rfl
    rw [hcomp, List.map_id']
  · rw [updatePhysics_events_rebuilding now2 _ rfl, if_pos hall]
    show (e.events ++ [EngineEvent.stateChange AppState.REBUILDING]) ++ _ = _
    simp

/-- C10 (witness): the empty-target rebuild of the tower engine, with the
per-voxel rubble assignment read off at slot 0. -/
theorem rebuild_empty_targets_witness :
    (rebuild 2 [] towerEngine).rebuildTargets[0]? =
      some ({ x := towerV0.x, y := towerV0.y, z := towerV0.z, delay := 0,
              isRubble := true } : RebuildTarget) ∧
    (updatePhysics 5 (rebuild 2 [] towerEngine)).state = AppState.STABLE ∧
    (updatePhysics 5 (rebuild 2 [] towerEngine)).voxels = towerEngine.voxels ∧
    (updatePhysics 5 (rebuild 2 [] towerEngine)).events =
      towerEngine.events ++ [EngineEvent.stateChange AppState.REBUILDING,
                             EngineEvent.stateChange AppState.STABLE] := by
  have h := rebuild_empty_targets 2 5 towerEngine
  exact ⟨h.1 0 towerV0 rfl, h.2.1, h.2.2.1, h.2.2.2⟩

/-! ## C7: matched-target delay formula and height monotonicity -/

/-- Every non-rubble entry the planner fold writes into the assignment list
comes from some processed target, carrying that target's position and its
height-derived delay. -/
theorem plan_nonrubble_shape (vs : List SimVoxel) (ts : List VoxelData) :
    ∀ (i : Nat) (t : RebuildTarget), (rebuildPlan vs ts)[i]? = some t →
      t.isRubble = false →
      ∃ tgt, tgt ∈ ts ∧
        t = ({ x := tgt.x, y := tgt.y, z := tgt.z, delay := delayOf tgt.y,
               isRubble := false } : RebuildTarget) := by
  intro i t hit hnr
  unfold rebuildPlan at hit
  set ms := (ts.foldl applyTarget
    (mapIdx0 (fun i v => PoolEntry.mk i v.color false) vs,
     List.replicate vs.length none)).2 with hms
  have hinv : ∀ (j : Nat) (u : RebuildTarget), ms[j]? = some (some u) →
      ∃ tgt, tgt ∈ ts ∧
        u = ({ x := tgt.x, y := tgt.y, z := tgt.z, delay := delayOf tgt.y,
               isRubble := false } : RebuildTarget) := by
    rw [hms]
    apply foldl_inv
      (P := fun st : List PoolEntry × List (Option RebuildTarget) =>
        ∀ (j : Nat) (u : RebuildTarget), st.2[j]? = some (some u) →
          ∃ tgt, tgt ∈ ts ∧
            u = ({ x := tgt.x, y := tgt.y, z := tgt.z, delay := delayOf tgt.y,
                   isRubble := false } : RebuildTarget))
    · intro j u hj
      rw [List.getElem?_replicate] at hj
      by_cases hjl : j < vs.length
      · rw [if_pos hjl] at hj
        exact absurd (Option.some.inj hj) (by simp)
      · rw [if_neg hjl] at hj
        exact absurd hj (by simp)
    · intro st x hx ih j u hj
      unfold applyTarget at hj
      split at hj
      · exact ih j u hj
      · split at hj
        · exact ih j u hj
        · dsimp only at hj
          rw [List.getElem?_set] at hj
          split at hj
          · split at hj
            · exact ⟨x, hx, (Option.some.inj (Option.some.inj hj)).symm⟩
            · exact absurd hj (by simp)
          · exact ih j u hj
  rw [fillRubble_getElem?] at hit
  rcases hv : vs[i]? with _ | v
  · rw [hv] at hit
    exact absurd hit (by simp)
  · rw [hv] at hit
    simp only [Option.map_some'] at hit
    rcases hmi : ms[i]? with _ | u
    · rw [hmi] at hit
      rw [← Option.some.inj hit] at hnr
      exact absurd hnr (by simp)
    · rcases u with _ | u0
      · rw [hmi] at hit
        rw [← Option.some.inj hit] at hnr
        exact absurd hnr (by simp)
      · rw [hmi] at hit
        rw [← Option.some.inj hit]
        exact hinv i u0 hmi

/-- C7.  Each matched (non-rubble) rebuild assignment receives exactly the
delay `max(0, (target.y − floor)/15) · 800` of its target, and this delay is
monotone in the target height: for targets at heights `h1 < h2` above the
floor, `delay(h1) ≤ delay(h2)`. -/
theorem delay_formula_monotone :
    (∀ (vs : List SimVoxel) (ts : List VoxelData) (i : Nat) (t : RebuildTarget),
      (rebuildPlan vs ts)[i]? = some t → t.isRubble = false →
      ∃ tgt, tgt ∈ ts ∧ t.x = tgt.x ∧ t.y = tgt.y ∧ t.z = tgt.z ∧
        t.delay = max 0 ((tgt.y - FLOOR_Y) / 15) * 800) ∧
    (∀ y1 y2 : ℚ, FLOOR_Y < y1 → y1 < y2 → delayOf y1 ≤ delayOf y2) := by
  constructor
  · intro vs ts i t hit hnr
    obtain ⟨tgt, htgt, rfl⟩ := plan_nonrubble_shape vs ts i t hit hnr
    exact ⟨tgt, htgt, rfl, rfl, rfl, rfl⟩
  · intro y1 y2 _ h12
    unfold delayOf
    apply mul_le_mul_of_nonneg_right ?_ (by norm_num)
    apply max_le_max le_rfl
    exact (div_le_div_iff_of_pos_right (by norm_num)).2 (by linarith)

/-- C7 (witness): the single-voxel pool matched to `witTarget` at height 9
receives delay `max(0, (9 + 12)/15) · 800 = 1120`, and the delay formula is
monotone between heights 0 and 9. -/
theorem delay_formula_monotone_witness :
    (∃ tgt, tgt ∈ [witTarget] ∧
      ({ x := 9, y := 9, z := 9, delay := 1120, isRubble := false } : RebuildTarget).x = tgt.x ∧
      ({ x := 9, y := 9, z := 9, delay := 1120, isRubble := false } : RebuildTarget).y = tgt.y ∧
      ({ x := 9, y := 9, z := 9, delay := 1120, isRubble := false } : RebuildTarget).z = tgt.z ∧
      ({ x := 9, y := 9, z := 9, delay := 1120, isRubble := false } : RebuildTarget).delay =
        max 0 ((tgt.y - FLOOR_Y) / 15) * 800) ∧
    delayOf 0 ≤ delayOf 9 :=
  ⟨delay_formula_monotone.1 [towerV0] [witTarget] 0
      ({ x := 9, y := 9, z := 9, delay := 1120, isRubble := false } : RebuildTarget)
      (by norm_num [rebuildPlan, fillRubble, applyTarget, scanPool, scanFrom, mapIdx0,
        mapIdxFrom, getColorDistSq, bigDistSq, epsSq, delayOf, FLOOR_Y, towerV0, zeroVoxel,
        witTarget])
      rfl,
    delay_formula_monotone.2 0 9 (by norm_num [FLOOR_Y]) (by norm_num)⟩

/-! ## Scan-loop characterization (toward C5 and C6) -/

theorem untakenEnum_cons (i : Nat) (e : PoolEntry) (l : List PoolEntry) :
    untakenEnum i (e :: l) =
      if e.taken = false then (i, e) :: untakenEnum (i + 1) l
      else untakenEnum (i + 1) l := by
  show ((i, e) :: enumFrom (i + 1) l).filter (fun p => ! p.2.taken) = _
  rw [List.filter_cons]
  cases he : e.taken <;> simp [he, untakenEnum]

/-- The scan loop computes: first-found minimum over the untaken prefix
truncated at the first near-exact match, resolved against the running best. -/
theorem scanFrom_spec (tc : Color) (l : List PoolEntry) :
    ∀ (i : Nat) (bd : ℚ) (best : Option Nat), epsSq ≤ bd →
      scanFrom tc l i bd best =
        selectWith best bd (argminFirst tc (takeUpToMatch tc (untakenEnum i l))) := by
  induction l with
  | nil => intro i bd best _; rfl
  | cons e rest ih =>
    intro i bd best hbd
    rw [untakenEnum_cons]
    by_cases ht : e.taken = true
    · rw [if_neg (by simp [ht])]
      simp only [scanFrom]
      rw [if_pos ht]
      exact ih (i + 1) bd best hbd
    · have ht' : e.taken = false := by simpa using ht
      rw [if_pos ht']
      simp only [scanFrom]
      rw [if_neg ht]
      by_cases hlt : getColorDistSq e.color tc < bd
      · rw [if_pos hlt]
        by_cases he : getColorDistSq e.color tc < epsSq
        · rw [if_pos he]
          have htake : takeUpToMatch tc ((i, e) :: untakenEnum (i + 1) rest) = [(i, e)] := by
            simp [takeUpToMatch, he]
          rw [htake]
          simp [argminFirst, selectWith, hlt]
        · rw [if_neg he]
          rw [ih (i + 1) (getColorDistSq e.color tc) (some i) (le_of_not_lt he)]
          have htake : takeUpToMatch tc ((i, e) :: untakenEnum (i + 1) rest) =
              (i, e) :: takeUpToMatch tc (untakenEnum (i + 1) rest) := by
            simp [takeUpToMatch, he]
          rw [htake]
          rcases ha : argminFirst tc (takeUpToMatch tc (untakenEnum (i + 1) rest))
            with _ | ⟨j, d'⟩
          · simp [argminFirst, ha, selectWith, hlt]
          · simp only [argminFirst, ha, selectWith]
            by_cases hdd : getColorDistSq e.color tc ≤ d'
            · rw [if_pos hdd]
              simp [selectWith, not_lt.2 hdd, hlt]
            · rw [if_neg hdd]
              have hd'd : d' < getColorDistSq e.color tc := lt_of_not_le hdd
              simp [selectWith, hd'd, lt_trans hd'd hlt]
      · rw [if_neg hlt]
        have hdge : bd ≤ getColorDistSq e.color tc := le_of_not_lt hlt
        have hne : ¬ getColorDistSq e.color tc < epsSq := not_lt.2 (le_trans hbd hdge)
        rw [ih (i + 1) bd best hbd]
        have htake : takeUpToMatch tc ((i, e) :: untakenEnum (i + 1) rest) =
            (i, e) :: takeUpToMatch tc (untakenEnum (i + 1) rest) := by
          simp [takeUpToMatch, hne]
        rw [htake]
        rcases ha : argminFirst tc (takeUpToMatch tc (untakenEnum (i + 1) rest))
          with _ | ⟨j, d'⟩
        · simp [argminFirst, ha, selectWith, hlt]
        · simp only [argminFirst, ha, selectWith]
          by_cases hdd : getColorDistSq e.color tc ≤ d'
          · rw [if_pos hdd]
            simp [selectWith, hlt, not_lt.2 (le_trans hdge hdd)]
          · rw [if_neg hdd]

/-- `argminFirst` yields nothing exactly on the empty list. -/
theorem argminFirst_eq_none (tc : Color) (L : List (Nat × PoolEntry)) :
    argminFirst tc L = none ↔ L = [] := by
  cases L with
  | nil => simp [argminFirst]
  | cons p rest =>
    simp only [argminFirst]
    constructor
    · intro h
      rcases ha : argminFirst tc rest with _ | ⟨j', d'⟩ <;> rw [ha] at h <;> dsimp only at h
      · exact absurd h (by simp)
      · by_cases hdd : getColorDistSq p.2.color tc ≤ d'
        · rw [if_pos hdd] at h; exact absurd h (by simp)
        · rw [if_neg hdd] at h; exact absurd h (by simp)
    · intro h; exact absurd h (by simp)

/-- `argminFirst` returns the index and distance of some member of its input. -/
theorem argminFirst_mem (tc : Color) :
    ∀ (L : List (Nat × PoolEntry)) (j : Nat) (d : ℚ), argminFirst tc L = some (j, d) →
      ∃ p, p ∈ L ∧ p.1 = j ∧ getColorDistSq p.2.color tc = d := by
  intro L
  induction L with
  | nil => intro j d h; exact absurd h (by simp [argminFirst])
  | cons p rest ih =>
    intro j d h
    simp only [argminFirst] at h
    rcases ha : argminFirst tc rest with _ | ⟨j2, d2⟩ <;> rw [ha] at h <;> dsimp only at h
    · obtain ⟨h1, h2⟩ := Prod.mk.injEq .. ▸ Option.some.inj h
      exact ⟨p, List.mem_cons_self p rest, h1, h2⟩
    · by_cases hdd : getColorDistSq p.2.color tc ≤ d2
      · rw [if_pos hdd] at h
        obtain ⟨h1, h2⟩ := Prod.mk.injEq .. ▸ Option.some.inj h
        exact ⟨p, List.mem_cons_self p rest, h1, h2⟩
      · rw [if_neg hdd] at h
        obtain ⟨h1, h2⟩ := Prod.mk.injEq .. ▸ Option.some.inj h
        obtain ⟨q, hq, hq1, hq2⟩ := ih j2 d2 ha
        exact ⟨q, List.mem_cons_of_mem p hq, hq1.trans h1, hq2.trans h2⟩

/-- `argminFirst` returns a minimal distance over its input. -/
theorem argminFirst_min (tc : Color) :
    ∀ (L : List (Nat × PoolEntry)) (j : Nat) (d : ℚ), argminFirst tc L = some (j, d) →
      ∀ p ∈ L, d ≤ getColorDistSq p.2.color tc := by
  intro L
  induction L with
  | nil => intro j d h; exact absurd h (by simp [argminFirst])
  | cons p rest ih =>
    intro j d h q hq
    simp only [argminFirst] at h
    rcases ha : argminFirst tc rest with _ | ⟨j2, d2⟩ <;> rw [ha] at h <;> dsimp only at h
    · obtain ⟨-, h2⟩ := Prod.mk.injEq .. ▸ Option.some.inj h
      have hrest : rest = [] := (argminFirst_eq_none tc rest).1 ha
      rcases List.mem_cons.1 hq with rfl | hq2
      · exact h2.symm.le
      · rw [hrest] at hq2
        exact absurd hq2 (by simp)
    · by_cases hdd : getColorDistSq p.2.color tc ≤ d2
      · rw [if_pos hdd] at h
        obtain ⟨-, h2⟩ := Prod.mk.injEq .. ▸ Option.some.inj h
        rcases List.mem_cons.1 hq with rfl | hq2
        · exact h2.symm.le
        · exact h2 ▸ (hdd.trans (ih j2 d2 ha q hq2))
      · rw [if_neg hdd] at h
        obtain ⟨-, h2⟩ := Prod.mk.injEq .. ▸ Option.some.inj h
        rcases List.mem_cons.1 hq with rfl | hq2
        · exact h2 ▸ le_of_lt (lt_of_not_le hdd)
        · exact h2 ▸ ih j2 d2 ha q hq2

/-- Everything in the truncated scan list is in the scan list. -/
theorem takeUpToMatch_subset (tc : Color) :
    ∀ (L : List (Nat × PoolEntry)) (p : Nat × PoolEntry), p ∈ takeUpToMatch tc L → p ∈ L := by
  intro L
  induction L with
  | nil => intro p h; exact absurd h (by simp [takeUpToMatch])
  | cons q rest ih =>
    intro p h
    simp only [takeUpToMatch] at h
    by_cases hq : getColorDistSq q.2.color tc < epsSq
    · rw [if_pos hq] at h
      exact List.mem_cons.2 (Or.inl (List.mem_singleton.1 h))
    · rw [if_neg hq] at h
      rcases List.mem_cons.1 h with h1 | h'
      · exact List.mem_cons.2 (Or.inl h1)
      · exact List.mem_cons_of_mem q (ih p h')

/-- Members of `enumFrom i l` are positions of `l` shifted by `i`. -/
theorem enumFrom_mem (l : List PoolEntry) :
    ∀ (i : Nat) (p : Nat × PoolEntry), p ∈ enumFrom i l →
      ∃ k, p.1 = i + k ∧ l[k]? = some p.2 := by
  induction l with
  | nil => intro i p h; exact absurd h (by simp [enumFrom])
  | cons e rest ih =>
    intro i p h
    rcases List.mem_cons.1 h with rfl | h'
    · exact ⟨0, by simp, by simp⟩
    · obtain ⟨k, hk1, hk2⟩ := ih (i + 1) p h'
      exact ⟨k + 1, by omega, by simpa using hk2⟩

/-- Positions of `l` appear in `enumFrom i l` shifted by `i`. -/
theorem mem_enumFrom (l : List PoolEntry) :
    ∀ (i k : Nat) (e : PoolEntry), l[k]? = some e → (i + k, e) ∈ enumFrom i l := by
  induction l with
  | nil => intro i k e h; exact absurd h (by simp)
  | cons q rest ih =>
    intro i k e h
    cases k with
    | zero =>
      rw [List.getElem?_cons_zero] at h
      rw [Option.some.inj h]
      exact List.mem_cons_self _ _
    | succ k =>
      rw [List.getElem?_cons_succ] at h
      have := ih (i + 1) k e h
      simpa [enumFrom, Nat.add_assoc, Nat.add_comm 1 k] using List.mem_cons_of_mem (i, q) this

/-- Weighted squared color distances of unit-range colors are far below the
(squared) initial best `9999 * 9999`. -/
theorem getColorDistSq_lt_big (c1 c2 : Color) (h1 : ColorInUnit c1) (h2 : ColorInUnit c2) :
    getColorDistSq c1 c2 < bigDistSq := by
  obtain ⟨a1, a2, a3, a4, a5, a6⟩ := h1
  obtain ⟨b1, b2, b3, b4, b5, b6⟩ := h2
  unfold getColorDistSq bigDistSq
  nlinarith [sq_nonneg (c1.r - c2.r), sq_nonneg (c1.g - c2.g), sq_nonneg (c1.b - c2.b)]

/-- Refinement of the scan loop by the spec's selection rule, given that every
candidate distance clears the initial best. -/
theorem scanPool_eq_specSelect (available : List PoolEntry) (tc : Color)
    (hbound : ∀ p ∈ untakenEnum 0 available, getColorDistSq p.2.color tc < bigDistSq) :
    scanPool available tc = specSelect available tc := by
  unfold scanPool specSelect
  rw [scanFrom_spec tc available 0 bigDistSq none (by norm_num [epsSq, bigDistSq])]
  rcases ha : argminFirst tc (takeUpToMatch tc (untakenEnum 0 available)) with _ | ⟨j, d⟩
  · rfl
  · obtain ⟨p, hp, -, hpd⟩ := argminFirst_mem tc _ j d ha
    have hd : d < bigDistSq := hpd ▸ hbound p (takeUpToMatch_subset tc _ p hp)
    simp [selectWith, hd]

/-! ## C5: planner determinism and minimum-distance selection -/

/-- C5.  The Rebuild Planner is a pure function of the existing particle
colors (in slot order) and the ordered target list — two runs on the same
inputs produce identical assignments — and its per-target scan selects
exactly as the claim describes: the untaken pool entry of minimum
perceptually weighted color distance, ties broken by pool scan order
(first-found minimum), the scan stopping early at the first distance below
the near-match threshold (`specSelect`).  Distances are compared in squared
form (`getColorDistSq` against `bigDistSq`, `epsSq`), which the monotonicity
of the square root makes equivalent to the source's comparisons; the color
bounds discharge the initial `9999` sentinel. -/
theorem planner_deterministic_minimum :
    (∀ (vs : List SimVoxel) (ts : List VoxelData), rebuildPlan vs ts = rebuildPlan vs ts) ∧
    (∀ (available : List PoolEntry) (tc : Color),
      (∀ e ∈ available, ColorInUnit e.color) → ColorInUnit tc →
      scanPool available tc = specSelect available tc) := by
  refine ⟨fun _ _ => rfl, fun available tc hpool htc => ?_⟩
  apply scanPool_eq_specSelect
  intro p hp
  have hmem : p.2 ∈ available := by
    have h1 : p ∈ enumFrom 0 available := List.mem_of_mem_filter hp
    obtain ⟨k, -, hk⟩ := enumFrom_mem available 0 p h1
    exact List.getElem?_mem hk
  exact getColorDistSq_lt_big _ _ (hpool p.2 hmem) htc

/-- C5 (witness): the two theorem parts applied to a concrete pool and target
color with unit-range channels. -/
theorem planner_deterministic_minimum_witness :
    rebuildPlan [towerV0] [witTarget] = rebuildPlan [towerV0] [witTarget] ∧
    scanPool witPool witColor = specSelect witPool witColor :=
  ⟨planner_deterministic_minimum.1 [towerV0] [witTarget],
   planner_deterministic_minimum.2 witPool witColor
     (by
       intro e he
       rcases List.mem_cons.1 he with rfl | he'
       · exact ⟨by norm_num, by norm_num, by norm_num, by norm_num, by norm_num, by norm_num⟩
       · rcases List.mem_singleton.1 he' with rfl
         exact ⟨by norm_num, by norm_num, by norm_num, by norm_num, by norm_num, by norm_num⟩)
     ⟨by norm_num [witColor], by norm_num [witColor], by norm_num [witColor],
      by norm_num [witColor], by norm_num [witColor], by norm_num [witColor]⟩⟩

/-! ## Counting lemmas for the planner fold (toward C6) -/

theorem mapIdxFrom_mem (f : Nat → α → β) (l : List α) :
    ∀ (i : Nat) (x : β), x ∈ mapIdxFrom f i l →
      ∃ k a, l[k]? = some a ∧ x = f (i + k) a := by
  induction l with
  | nil => intro i x hx; exact absurd hx (by simp [mapIdxFrom])
  | cons a l ih =>
    intro i x hx
    rcases List.mem_cons.1 hx with rfl | hx2
    · exact ⟨0, a, by simp, by simp⟩
    · obtain ⟨k, b, hk, hxk⟩ := ih (i + 1) x hx2
      refine ⟨k + 1, b, by simpa using hk, ?_⟩
      rw [hxk]
      congr 1
      omega

theorem countP_not_eq (l : List α) (p : α → Bool) :
    l.countP (fun a => ! p a) = l.length - l.countP p := by
  induction l with
  | nil => simp
  | cons a l ih =>
    have hle := List.countP_le_length p (l := l)
    rw [List.countP_cons, List.countP_cons, ih]
    cases hpa : p a
    · simp
      omega
    · simp

theorem takeUpToMatch_ne_nil (tc : Color) (L : List (Nat × PoolEntry)) (h : L ≠ []) :
    takeUpToMatch tc L ≠ [] := by
  cases L with
  | nil => exact absurd rfl h
  | cons p rest =>
    simp only [takeUpToMatch]
    split
    · simp
    · simp

/-- When some untaken entry exists and all colors are unit-range, the scan
returns an untaken pool index. -/
theorem scanPool_untaken_some (st1 : List PoolEntry) (tc : Color)
    (hcolors : ∀ e ∈ st1, ColorInUnit e.color) (htc : ColorInUnit tc)
    (hex : ∃ (k : Nat) (e : PoolEntry), st1[k]? = some e ∧ e.taken = false) :
    ∃ (j : Nat) (entry : PoolEntry),
      scanPool st1 tc = some j ∧ st1[j]? = some entry ∧ entry.taken = false := by
  obtain ⟨k, e, hk, hke⟩ := hex
  have hb : ∀ p ∈ untakenEnum 0 st1, getColorDistSq p.2.color tc < bigDistSq := by
    intro p hp
    have h1 : p ∈ enumFrom 0 st1 := List.mem_of_mem_filter hp
    obtain ⟨k2, -, hk2⟩ := enumFrom_mem st1 0 p h1
    exact getColorDistSq_lt_big _ _ (hcolors p.2 (List.getElem?_mem hk2)) htc
  rw [scanPool_eq_specSelect st1 tc hb]
  have hmem : ((0 + k, e) : Nat × PoolEntry) ∈ untakenEnum 0 st1 :=
    List.mem_filter.2 ⟨mem_enumFrom st1 0 k e hk, by simp [hke]⟩
  have hne : untakenEnum 0 st1 ≠ [] := by
    intro hnil
    rw [hnil] at hmem
    exact absurd hmem (by simp)
  rcases ha : argminFirst tc (takeUpToMatch tc (untakenEnum 0 st1)) with _ | ⟨j, d⟩
  · exact absurd ((argminFirst_eq_none tc _).1 ha) (takeUpToMatch_ne_nil tc _ hne)
  · obtain ⟨p, hp, hp1, -⟩ := argminFirst_mem tc _ j d ha
    have hpU : p ∈ untakenEnum 0 st1 := takeUpToMatch_subset tc _ p hp
    have hpE : p ∈ enumFrom 0 st1 := List.mem_of_mem_filter hpU
    have hpT : p.2.taken = false := by simpa using (List.mem_filter.1 hpU).2
    obtain ⟨k2, hk1, hk2⟩ := enumFrom_mem st1 0 p hpE
    refine ⟨j, p.2, ?_, ?_, hpT⟩
    · unfold specSelect
      rw [ha]
    · rw [← hp1, hk1]
      simpa using hk2

/-- One planner-fold step preserves the invariant and matches one more
target, as long as the pool is not exhausted. -/
theorem applyTarget_inv (n c : Nat) (st : List PoolEntry × List (Option RebuildTarget))
    (t : VoxelData) (hinv : PlanInv n c st) (hc : c < n) (htc : ColorInUnit t.color) :
    PlanInv n (c + 1) (applyTarget st t) := by
  have hex : ∃ (k : Nat) (e : PoolEntry), st.1[k]? = some e ∧ e.taken = false := by
    by_contra hno
    push_neg at hno
    have hall : st.1.countP (fun e => e.taken) = st.1.length := by
      apply List.countP_eq_length.2
      intro a ha
      obtain ⟨k, hk⟩ := List.mem_iff_getElem?.1 ha
      have := hno k a hk
      simpa using this
    rw [hinv.count1, hinv.len1] at hall
    omega
  obtain ⟨j, entry, hsp, hj, hjt⟩ := scanPool_untaken_some st.1 t.color hinv.colors htc hex
  have hred : applyTarget st t =
      (st.1.set j { entry with taken := true },
       st.2.set entry.index
         (some { x := t.x, y := t.y, z := t.z, delay := delayOf t.y, isRubble := false })) := by
    unfold applyTarget
    rw [hsp]
    dsimp only
    rw [hj]
  obtain ⟨hjn, hjv⟩ := List.getElem?_eq_some.mp hj
  have hidx : entry.index = j := hinv.idx j entry hj
  have hjn2 : j < st.2.length := by rw [hinv.len2, ← hinv.len1]; exact hjn
  have hms : st.2[j]? = some none := by
    rcases hm : st.2[j]? with _ | m
    · rw [List.getElem?_eq_none_iff] at hm
      omega
    · cases m with
      | none => rfl
      | some u =>
        have halign := (hinv.align j entry (some u) hj hm).2 (by simp)
        rw [halign] at hjt
        exact absurd hjt (by simp)
  obtain ⟨hjn2', hjv2⟩ := List.getElem?_eq_some.mp hms
  rw [hred]
  refine ⟨?_, ?_, ?_, ?_, ?_, ?_, ?_, ?_⟩
  · simpa using hinv.len1
  · simpa using hinv.len2
  · intro j2 e2 h2
    rw [List.getElem?_set] at h2
    by_cases hjj : j = j2
    · rw [if_pos hjj, if_pos (hjj ▸ hjn)] at h2
      rw [← Option.some.inj h2]
      show entry.index = j2
      rw [hidx, hjj]
    · rw [if_neg hjj] at h2
      exact hinv.idx j2 e2 h2
  · intro e2 he2
    rcases List.mem_or_eq_of_mem_set he2 with h2 | rfl
    · exact hinv.colors e2 h2
    · exact hinv.colors entry (List.getElem?_mem hj)
  · intro j2 e2 m2 h1 h2
    rw [hidx] at h2
    rw [List.getElem?_set] at h1 h2
    by_cases hjj : j = j2
    · rw [if_pos hjj, if_pos (hjj ▸ hjn)] at h1
      rw [if_pos hjj, if_pos (hjj ▸ hjn2)] at h2
      rw [← Option.some.inj h1, ← Option.some.inj h2]
      simp
    · rw [if_neg hjj] at h1 h2
      exact hinv.align j2 e2 m2 h1 h2
  · intro j2 u h2
    rw [hidx, List.getElem?_set] at h2
    by_cases hjj : j = j2
    · rw [if_pos hjj, if_pos (hjj ▸ hjn2)] at h2
      rw [← Option.some.inj (Option.some.inj h2)]
    · rw [if_neg hjj] at h2
      exact hinv.shape j2 u h2
  · rw [List.countP_set _ _ _ _ hjn, hjv, hjt, hinv.count1]
    simp
  · rw [hidx, List.countP_set _ _ _ _ hjn2, hjv2, hinv.count2]
    simp

/-- Folding the planner over the target list matches every target while the
pool lasts. -/
theorem applyTarget_fold (n : Nat) (ts : List VoxelData) :
    ∀ (st : List PoolEntry × List (Option RebuildTarget)) (c : Nat),
      PlanInv n c st → (∀ t ∈ ts, ColorInUnit t.color) → c + ts.length ≤ n →
      PlanInv n (c + ts.length) (ts.foldl applyTarget st) := by
  induction ts with
  | nil => intro st c hinv _ _; simpa using hinv
  | cons t ts ih =>
    intro st c hinv hcolors hle
    simp only [List.foldl_cons]
    have hlen : ts.length + 1 = (t :: ts).length := by simp
    have h1 := applyTarget_inv n c st t hinv (by simp at hle; omega)
      (hcolors t (List.mem_cons_self t ts))
    have h2 := ih (applyTarget st t) (c + 1) h1
      (fun x hx => hcolors x (List.mem_cons_of_mem t hx)) (by simp at hle ⊢; omega)
    have : c + 1 + ts.length = c + (t :: ts).length := by simp; omega
    rw [← this]
    exact h2

/-- Counting rubble in `fillRubble`: unassigned slots, i.e. all but the
matched ones. -/
theorem fillRubble_rubble_count (vs : List SimVoxel) :
    ∀ ms : List (Option RebuildTarget), ms.length = vs.length →
      (∀ (j : Nat) (u : RebuildTarget), ms[j]? = some (some u) → u.isRubble = false) →
      (fillRubble vs ms).countP (fun t => t.isRubble) =
        vs.length - ms.countP (fun m => m.isSome) := by
  induction vs with
  | nil =>
    intro ms hlen _
    cases ms with
    | nil => simp [fillRubble]
    | cons m ms => exact absurd hlen (by simp)
  | cons v vs ih =>
    intro ms hlen hshape
    cases ms with
    | nil => exact absurd hlen (by simp)
    | cons m ms =>
      have htail := ih ms (by simpa using hlen)
        (fun j u hu => hshape (j + 1) u (by rw [List.getElem?_cons_succ]; exact hu))
      have hle := List.countP_le_length (fun m : Option RebuildTarget => m.isSome) (l := ms)
      have hlen2 : ms.length = vs.length := by simpa using hlen
      cases m with
      | none =>
        simp only [fillRubble, List.countP_cons, htail]
        simp
        omega
      | some u =>
        have hu : u.isRubble = false := hshape 0 u (by simp)
        simp only [fillRubble, List.countP_cons, htail]
        simp [hu]

/-- The planner fold starts in the invariant with zero targets matched. -/
theorem planInv_initial (vs : List SimVoxel) (hv : ∀ v ∈ vs, ColorInUnit v.color) :
    PlanInv vs.length 0
      (mapIdx0 (fun i v => PoolEntry.mk i v.color false) vs,
       List.replicate vs.length none) := by
  refine ⟨?_, ?_, ?_, ?_, ?_, ?_, ?_, ?_⟩
  · exact mapIdx0_length _ _
  · simp
  · intro j e h
    rw [mapIdx0_getElem?] at h
    rcases hj : vs[j]? with _ | v
    · rw [hj] at h
      exact absurd h (by simp)
    · rw [hj] at h
      simp only [Option.map_some'] at h
      rw [← Option.some.inj h]
  · intro e he
    obtain ⟨k, a, hk, rfl⟩ := mapIdxFrom_mem _ _ 0 e he
    exact hv a (List.getElem?_mem hk)
  · intro j e m h1 h2
    rw [mapIdx0_getElem?] at h1
    rcases hj : vs[j]? with _ | v
    · rw [hj] at h1
      exact absurd h1 (by simp)
    · rw [hj] at h1
      simp only [Option.map_some'] at h1
      rw [List.getElem?_replicate] at h2
      by_cases hjl : j < vs.length
      · rw [if_pos hjl] at h2
        rw [← Option.some.inj h1, ← Option.some.inj h2]
        simp
      · rw [if_neg hjl] at h2
        exact absurd h2 (by simp)
  · intro j u h
    rw [List.getElem?_replicate] at h
    by_cases hjl : j < vs.length
    · rw [if_pos hjl] at h
      exact absurd (Option.some.inj h) (by simp)
    · rw [if_neg hjl] at h
      exact absurd h (by simp)
  · apply List.countP_eq_zero.2
    intro a ha
    obtain ⟨k, b, hk, rfl⟩ := mapIdxFrom_mem _ _ 0 a ha
    simp
  · apply List.countP_eq_zero.2
    intro a ha
    rw [List.eq_of_mem_replicate ha]
    simp

/-! ## C6: rubble count and rubble exclusion from the completion check -/

/-- C6.  When there are more existing particles than targets (all colors in
unit range, as engine colors are), the planner marks exactly
`existing − targets` slots rubble and assigns all `targets` slots non-rubble;
a target whose pool scan finds nothing is silently skipped (the fold state is
unchanged); and the REBUILDING completion check ranges over exactly the
non-rubble assignments: the step reaches STABLE if and only if every
non-rubble slot's convergence flag is set, with rubble slots never examined. -/
theorem rubble_count_completion :
    (∀ (vs : List SimVoxel) (ts : List VoxelData),
      ts.length < vs.length →
      (∀ v ∈ vs, ColorInUnit v.color) → (∀ t ∈ ts, ColorInUnit t.color) →
      (rebuildPlan vs ts).countP (fun t => t.isRubble) = vs.length - ts.length ∧
      (rebuildPlan vs ts).countP (fun t => ! t.isRubble) = ts.length) ∧
    (∀ (st : List PoolEntry × List (Option RebuildTarget)) (t : VoxelData),
      scanPool st.1 t.color = none → applyTarget st t = st) ∧
    (∀ (now : ℚ) (e : Engine), e.state = AppState.REBUILDING →
      ((updatePhysics now e).state = AppState.STABLE ↔
        ∀ (i : Nat) (t : RebuildTarget) (v : SimVoxel),
          e.rebuildTargets[i]? = some t → e.voxels[i]? = some v → t.isRubble = false →
          (rebuildStepVoxel (now - e.rebuildStartTime) t v).2 = true)) := by
  refine ⟨?_, ?_, ?_⟩
  · intro vs ts hlt hv hts
    have hfold := applyTarget_fold vs.length ts _ 0 (planInv_initial vs hv) hts (by omega)
    unfold rebuildPlan
    have hrub : (fillRubble vs
        (ts.foldl applyTarget
          (mapIdx0 (fun i v => PoolEntry.mk i v.color false) vs,
           List.replicate vs.length none)).2).countP (fun t => t.isRubble) =
        vs.length - ts.length := by
      rw [fillRubble_rubble_count vs _ (by rw [hfold.len2]) hfold.shape, hfold.count2]
      omega
    refine ⟨hrub, ?_⟩
    rw [countP_not_eq, fillRubble_length, hrub]
    omega
  · intro st t h
    unfold applyTarget
    rw [h]
  · intro now e hstate
    rw [updatePhysics_state_rebuilding now e hstate]
    by_cases hall : (mapIdx0 (rebuildStepAt e now) e.voxels).all Prod.snd = true
    · rw [if_pos hall]
      apply iff_of_true rfl
      intro i t v ht hv2 hnr
      have hget : (mapIdx0 (rebuildStepAt e now) e.voxels)[i]? =
          some (rebuildStepAt e now i v) := by
        rw [mapIdx0_getElem?, hv2]
        rfl
      have hsnd := List.all_eq_true.1 hall _ (List.getElem?_mem hget)
      unfold rebuildStepAt at hsnd
      rw [ht] at hsnd
      exact hsnd
    · rw [if_neg hall]
      apply iff_of_false (by decide)
      intro hforall
      apply hall
      apply List.all_eq_true.2
      intro x hx
      obtain ⟨k, a, hk, hxk⟩ := mapIdxFrom_mem (rebuildStepAt e now) e.voxels 0 x hx
      rw [hxk, Nat.zero_add]
      show (rebuildStepAt e now k a).2 = true
      unfold rebuildStepAt
      rcases htk : e.rebuildTargets[k]? with _ | t
      · rfl
      · dsimp only
        by_cases hrb : t.isRubble = true
        · simp [rebuildStepVoxel, hrb]
        · exact hforall k t a htk hk (by simpa using hrb)

/-- C6 (witness): four tower voxels against one target leave exactly three
rubble slots and one matched slot, an exhausted scan leaves the fold state
unchanged, and the completion characterization instantiated at the rubble
engine. -/
theorem rubble_count_completion_witness :
    ((rebuildPlan towerVoxels [witTarget]).countP (fun t => t.isRubble) =
        towerVoxels.length - [witTarget].length ∧
      (rebuildPlan towerVoxels [witTarget]).countP (fun t => ! t.isRubble) =
        [witTarget].length) ∧
    applyTarget ([⟨0, ⟨0, 0, 0⟩, true⟩], ([] : List (Option RebuildTarget))) witTarget =
      ([⟨0, ⟨0, 0, 0⟩, true⟩], []) ∧
    ((updatePhysics 3 rubbleEngine).state = AppState.STABLE ↔
      ∀ (i : Nat) (t : RebuildTarget) (v : SimVoxel),
        rubbleEngine.rebuildTargets[i]? = some t → rubbleEngine.voxels[i]? = some v →
        t.isRubble = false →
        (rebuildStepVoxel (3 - rubbleEngine.rebuildStartTime) t v).2 = true) := by
  refine ⟨rubble_count_completion.1 towerVoxels [witTarget] (by decide) ?_ ?_,
    rubble_count_completion.2.1 ([⟨0, ⟨0, 0, 0⟩, true⟩], []) witTarget rfl,
    rubble_count_completion.2.2 3 rubbleEngine rfl⟩
  · intro v hv
    rcases List.mem_cons.1 hv with rfl | hv
    · exact ⟨by norm_num [towerV0, zeroVoxel], by norm_num [towerV0, zeroVoxel],
        by norm_num [towerV0, zeroVoxel], by norm_num [towerV0, zeroVoxel],
        by norm_num [towerV0, zeroVoxel], by norm_num [towerV0, zeroVoxel]⟩
    rcases List.mem_cons.1 hv with rfl | hv
    · exact ⟨by norm_num [towerV1, zeroVoxel], by norm_num [towerV1, zeroVoxel],
        by norm_num [towerV1, zeroVoxel], by norm_num [towerV1, zeroVoxel],
        by norm_num [towerV1, zeroVoxel], by norm_num [towerV1, zeroVoxel]⟩
    rcases List.mem_cons.1 hv with rfl | hv
    · exact ⟨by norm_num [towerV2, zeroVoxel], by norm_num [towerV2, zeroVoxel],
        by norm_num [towerV2, zeroVoxel], by norm_num [towerV2, zeroVoxel],
        by norm_num [towerV2, zeroVoxel], by norm_num [towerV2, zeroVoxel]⟩
    rcases List.mem_singleton.1 hv with rfl
    exact ⟨by norm_num [towerV3, zeroVoxel], by norm_num [towerV3, zeroVoxel],
      by norm_num [towerV3, zeroVoxel], by norm_num [towerV3, zeroVoxel],
      by norm_num [towerV3, zeroVoxel], by norm_num [towerV3, zeroVoxel]⟩
  · intro t ht
    rcases List.mem_singleton.1 ht with rfl
    exact ⟨by norm_num [witTarget], by norm_num [witTarget], by norm_num [witTarget],
      by norm_num [witTarget], by norm_num [witTarget], by norm_num [witTarget]⟩

/-! ## Skeleton (strip) lemmas for the structural-integrity pass -/

theorem stripEq_refl (a : List SimVoxel) : stripEq a a := fun _ => rfl

theorem stripEq_symm {a b : List SimVoxel} (h : stripEq a b) : stripEq b a :=
  fun i => (h i).symm

theorem stripEq_trans {a b c : List SimVoxel} (h1 : stripEq a b) (h2 : stripEq b c) :
    stripEq a c := fun i => (h1 i).trans (h2 i)

theorem stripEq_length {a b : List SimVoxel} (h : stripEq a b) : a.length = b.length := by
  by_contra hne
  rcases Nat.lt_or_ge a.length b.length with hlt | hge
  · have h1 : a[a.length]? = none := List.getElem?_eq_none le_rfl
    have heq := h a.length
    rw [h1] at heq
    have h2 : b[a.length]? = none := by
      rcases hb : b[a.length]? with _ | w
      · rfl
      · rw [hb] at heq
        exact absurd heq (by simp)
    rw [List.getElem?_eq_none_iff] at h2
    omega
  · have hlt2 : b.length < a.length := lt_of_le_of_ne hge (fun hh => hne hh.symm)
    have h1 : b[b.length]? = none := List.getElem?_eq_none le_rfl
    have heq := h b.length
    rw [h1] at heq
    have h2 : a[b.length]? = none := by
      rcases hb : a[b.length]? with _ | w
      · rfl
      · rw [hb] at heq
        exact absurd heq (by simp)
    rw [List.getElem?_eq_none_iff] at h2
    omega

theorem stripEq_lookup {a b : List SimVoxel} (h : stripEq a b) {i : Nat} {v : SimVoxel}
    (hv : a[i]? = some v) : ∃ w, b[i]? = some w ∧ strip w = strip v := by
  have := h i
  rw [hv] at this
  rcases hw : b[i]? with _ | w
  · rw [hw] at this
    exact absurd this (by simp)
  · rw [hw] at this
    simp only [Option.map_some'] at this
    exact ⟨w, rfl, (Option.some.inj this).symm⟩

theorem strip_isFalling (v : SimVoxel) : (strip v).isFalling = v.isFalling := rfl

theorem keyOf_strip (v : SimVoxel) : keyOf (strip v) = keyOf v := rfl

theorem eq_of_strip_eq {a b : SimVoxel} (h : strip a = strip b)
    (hg : a.grounded = b.grounded) : a = b := by
  cases a
  cases b
  simp only [strip, SimVoxel.mk.injEq] at h ⊢
  obtain ⟨h1, h2, h3, h4, h5, h6, h7, h8, h9, h10, h11, h12, h13, h14, h15, -⟩ := h
  exact ⟨h1, h2, h3, h4, h5, h6, h7, h8, h9, h10, h11, h12, h13, h14, h15, hg⟩

theorem isAnchor_of_strip_eq {a b : SimVoxel} (h : strip a = strip b) :
    isAnchor a ↔ isAnchor b := by
  unfold isAnchor
  have h1 : a.isFalling = b.isFalling := by
    rw [← strip_isFalling a, ← strip_isFalling b, h]
  have h2 : a.y = b.y := by
    have := congrArg SimVoxel.y h
    simpa [strip] using this
  rw [h1, h2]

theorem keyOf_of_strip_eq {a b : SimVoxel} (h : strip a = strip b) : keyOf a = keyOf b := by
  rw [← keyOf_strip a, ← keyOf_strip b, h]

/-- The grid map only reads positions and falling flags, so strip-equal lists
have the same map. -/
theorem mapFind_stripEq {a b : List SimVoxel} (h : stripEq a b) (k : ℤ × ℤ × ℤ) :
    mapFind a k = mapFind b k := by
  unfold mapFind
  rw [stripEq_length h]
  have hstep : ∀ (l : List Nat) (acc : Option Nat),
      (∀ i ∈ l, (a[i]?).map strip = (b[i]?).map strip) →
      l.foldl (fun acc i =>
        match a[i]? with
        | some v => if v.isFalling = false ∧ keyOf v = k then some i else acc
        | none => acc) acc =
      l.foldl (fun acc i =>
        match b[i]? with
        | some v => if v.isFalling = false ∧ keyOf v = k then some i else acc
        | none => acc) acc := by
    intro l
    induction l with
    | nil => intro acc _; rfl
    | cons x l ih =>
      intro acc hl
      simp only [List.foldl_cons]
      have hx := hl x (List.mem_cons_self x l)
      rcases hax : a[x]? with _ | va
      · rcases hbx : b[x]? with _ | vb
        · dsimp only
          exact ih acc (fun i hi => hl i (List.mem_cons_of_mem x hi))
        · rw [hax, hbx] at hx
          exact absurd hx (by simp)
      · rcases hbx : b[x]? with _ | vb
        · rw [hax, hbx] at hx
          exact absurd hx (by simp)
        · rw [hax, hbx] at hx
          simp only [Option.map_some'] at hx
          have hsv : strip va = strip vb := Option.some.inj hx
          have hf : va.isFalling = vb.isFalling := by
            rw [← strip_isFalling va, ← strip_isFalling vb, hsv]
          have hk : keyOf va = keyOf vb := keyOf_of_strip_eq hsv
          dsimp only
          rw [hf, hk]
          exact ih _ (fun i hi => hl i (List.mem_cons_of_mem x hi))
  exact hstep (List.range b.length) none (fun i _ => h i)

/-- Reachability only depends on the skeleton. -/
theorem Reaches_of_stripEq {a b : List SimVoxel} (h : stripEq a b) {i : Nat}
    (hr : Reaches a i) : Reaches b i := by
  induction hr with
  | anchor j v hv ha =>
    obtain ⟨w, hw, hsw⟩ := stripEq_lookup h hv
    exact Reaches.anchor j w hw ((isAnchor_of_strip_eq hsw).2 ha)
  | step j j2 hj hedge ih =>
    obtain ⟨v, d, hv, hd, hm⟩ := hedge
    obtain ⟨w, hw, hsw⟩ := stripEq_lookup h hv
    refine Reaches.step j j2 ih ⟨w, d, hw, hd, ?_⟩
    rw [keyOf_of_strip_eq hsw, ← mapFind_stripEq h]
    exact hm

theorem Reaches_iff_stripEq {a b : List SimVoxel} (h : stripEq a b) (i : Nat) :
    Reaches a i ↔ Reaches b i :=
  ⟨Reaches_of_stripEq h, Reaches_of_stripEq (stripEq_symm h)⟩

/-- A grid map hit names a non-falling voxel with the looked-up key. -/
theorem mapFind_spec (vs : List SimVoxel) (k : ℤ × ℤ × ℤ) :
    ∀ j : Nat, mapFind vs k = some j →
      ∃ v, vs[j]? = some v ∧ v.isFalling = false ∧ keyOf v = k := by
  intro j h
  unfold mapFind at h
  refine (foldl_inv
    (P := fun acc : Option Nat => ∀ j2 : Nat, acc = some j2 →
      ∃ v, vs[j2]? = some v ∧ v.isFalling = false ∧ keyOf v = k)
    (fun acc i =>
      match vs[i]? with
      | some v => if v.isFalling = false ∧ keyOf v = k then some i else acc
      | none => acc)
    (List.range vs.length) none
    (fun j2 h2 => absurd h2 (by simp))
    ?_) j h
  intro acc x _ hacc j2 h2
  dsimp only at h2
  rcases hvx : vs[x]? with _ | v
  · rw [hvx] at h2
    exact hacc j2 h2
  · rw [hvx] at h2
    dsimp only at h2
    by_cases hc : v.isFalling = false ∧ keyOf v = k
    · rw [if_pos hc] at h2
      rw [← Option.some.inj h2]
      exact ⟨v, hvx, hc.1, hc.2⟩
    · rw [if_neg hc] at h2
      exact hacc j2 h2

theorem setGrounded_getElem?_ne (vs : List SimVoxel) (j k : Nat) (h : j ≠ k) :
    (setGrounded vs j)[k]? = vs[k]? := by
  unfold setGrounded
  rcases hj : vs[j]? with _ | v
  · rfl
  · exact List.getElem?_set_ne h

theorem setGrounded_getElem?_self (vs : List SimVoxel) (j : Nat) (v : SimVoxel)
    (hv : vs[j]? = some v) :
    (setGrounded vs j)[j]? = some { v with grounded := true } := by
  unfold setGrounded
  rw [hv]
  exact List.getElem?_set_self (List.getElem?_eq_some.mp hv).1

theorem setGrounded_strip (vs : List SimVoxel) (j : Nat) :
    stripEq (setGrounded vs j) vs := by
  intro i
  by_cases hij : j = i
  · subst hij
    rcases hv : vs[j]? with _ | v
    · unfold setGrounded
      rw [hv]
      dsimp only
      rw [hv]
    · rw [setGrounded_getElem?_self vs j v hv]
      rfl
  · rw [setGrounded_getElem?_ne vs j i hij]

theorem setGrounded_mono (vs : List SimVoxel) (j : Nat) :
    ∀ i : Nat, groundedAt vs i → groundedAt (setGrounded vs j) i := by
  intro i ⟨w, hw, hg⟩
  by_cases hij : j = i
  · subst hij
    exact ⟨{ w with grounded := true }, setGrounded_getElem?_self vs j w hw, rfl⟩
  · exact ⟨w, by rw [setGrounded_getElem?_ne vs j i hij]; exact hw, hg⟩

theorem setGrounded_groundedAt_self (vs : List SimVoxel) (j : Nat) (v : SimVoxel)
    (hv : vs[j]? = some v) : groundedAt (setGrounded vs j) j :=
  ⟨{ v with grounded := true }, setGrounded_getElem?_self vs j v hv, rfl⟩

theorem setGrounded_groundedAt_elim (vs : List SimVoxel) (j : Nat) :
    ∀ i : Nat, groundedAt (setGrounded vs j) i → groundedAt vs i ∨ i = j := by
  intro i ⟨w, hw, hg⟩
  by_cases hij : i = j
  · exact Or.inr hij
  · rw [setGrounded_getElem?_ne vs j i (fun hh => hij hh.symm)] at hw
    exact Or.inl ⟨w, hw, hg⟩

theorem setGrounded_countP (vs : List SimVoxel) (j : Nat) (v : SimVoxel)
    (hv : vs[j]? = some v) (hg : v.grounded = false) :
    (setGrounded vs j).countP (fun v => ! v.grounded) + 1 =
      vs.countP (fun v => ! v.grounded) := by
  obtain ⟨hj, hjv⟩ := List.getElem?_eq_some.mp hv
  have hpos : 0 < vs.countP (fun v => ! v.grounded) :=
    List.countP_pos_iff.2 ⟨v, List.getElem?_mem hv, by simp [hg]⟩
  unfold setGrounded
  rw [hv]
  rw [List.countP_set _ _ _ _ hj, hjv, hg]
  simp
  omega

/-- Effect of one neighbor lookup of the BFS inner loop: the skeleton is
untouched, grounding is monotone, any queue growth names exactly the newly
grounded (reachable) voxel, the lookup's target ends grounded, and the
`ungrounded + queue` measure does not increase. -/
theorem visitNbr_step (vs0 : List SimVoxel) (st : List SimVoxel × List Nat) (k : ℤ × ℤ × ℤ)
    (hstrip : stripEq st.1 vs0)
    (hreach : ∀ j : Nat, mapFind vs0 k = some j → Reaches vs0 j) :
    stripEq (visitNbr vs0 st k).1 vs0 ∧
    (∀ j : Nat, groundedAt st.1 j → groundedAt (visitNbr vs0 st k).1 j) ∧
    (∃ extra, (visitNbr vs0 st k).2 = st.2 ++ extra ∧
      (∀ j ∈ extra, Reaches vs0 j) ∧
      (∀ j : Nat, groundedAt (visitNbr vs0 st k).1 j → groundedAt st.1 j ∨ j ∈ extra)) ∧
    (∀ j : Nat, mapFind vs0 k = some j → groundedAt (visitNbr vs0 st k).1 j) ∧
    ((visitNbr vs0 st k).1.countP (fun v => ! v.grounded) + (visitNbr vs0 st k).2.length ≤
      st.1.countP (fun v => ! v.grounded) + st.2.length) := by
  rcases hm : mapFind vs0 k with _ | j
  · have hid : visitNbr vs0 st k = st := by
      unfold visitNbr
      rw [hm]
    rw [hid]
    refine ⟨hstrip, fun _ h => h, ⟨[], by simp, by simp, fun _ h => Or.inl h⟩, ?_, le_rfl⟩
    intro j hj
    exact absurd hj (by simp)
  · obtain ⟨v0, hv0, hvf, -⟩ := mapFind_spec vs0 k j hm
    obtain ⟨nv, hnv, hsnv⟩ := stripEq_lookup (stripEq_symm hstrip) hv0
    have hnf : nv.isFalling = false := by
      rw [← strip_isFalling nv, hsnv, strip_isFalling]
      exact hvf
    by_cases hg : nv.grounded = false
    · have heq : visitNbr vs0 st k = (setGrounded st.1 j, st.2 ++ [j]) := by
        unfold visitNbr
        rw [hm]
        dsimp only
        rw [hnv]
        dsimp only
        rw [if_pos ⟨hnf, hg⟩]
      rw [heq]
      refine ⟨?_, ?_, ?_, ?_, ?_⟩
      · exact stripEq_trans (setGrounded_strip st.1 j) hstrip
      · exact fun i h => setGrounded_mono st.1 j i h
      · refine ⟨[j], rfl, ?_, ?_⟩
        · intro x hx
          rw [List.mem_singleton.1 hx]
          exact hreach j hm
        · intro i h
          rcases setGrounded_groundedAt_elim st.1 j i h with h1 | rfl
          · exact Or.inl h1
          · exact Or.inr (by simp)
      · intro j2 h2
        rw [← Option.some.inj h2]
        exact setGrounded_groundedAt_self st.1 j nv hnv
      · have hcnt := setGrounded_countP st.1 j nv hnv hg
        simp only [List.length_append, List.length_singleton]
        omega
    · have hgt : nv.grounded = true := by
        revert hg
        cases nv.grounded
        · simp
        · simp
      have hid : visitNbr vs0 st k = st := by
        unfold visitNbr
        rw [hm]
        dsimp only
        rw [hnv]
        dsimp only
        rw [if_neg (by simp [hgt])]
      rw [hid]
      refine ⟨hstrip, fun _ h => h, ⟨[], by simp, by simp, fun _ h => Or.inl h⟩, ?_, le_rfl⟩
      intro j2 h2
      rw [← Option.some.inj h2]
      exact ⟨nv, hnv, hgt⟩

/-- Effect of the fold over a list of neighbor offsets. -/
theorem visit_fold (vs0 : List SimVoxel) (base : ℤ × ℤ × ℤ) (ds : List (ℤ × ℤ × ℤ)) :
    ∀ st : List SimVoxel × List Nat, stripEq st.1 vs0 →
      (∀ d ∈ ds, ∀ j : Nat, mapFind vs0 (addKey base d) = some j → Reaches vs0 j) →
      stripEq (ds.foldl (fun s d => visitNbr vs0 s (addKey base d)) st).1 vs0 ∧
      (∀ j : Nat, groundedAt st.1 j →
        groundedAt (ds.foldl (fun s d => visitNbr vs0 s (addKey base d)) st).1 j) ∧
      (∃ extra, (ds.foldl (fun s d => visitNbr vs0 s (addKey base d)) st).2 = st.2 ++ extra ∧
        (∀ j ∈ extra, Reaches vs0 j) ∧
        (∀ j : Nat, groundedAt (ds.foldl (fun s d => visitNbr vs0 s (addKey base d)) st).1 j →
          groundedAt st.1 j ∨ j ∈ extra)) ∧
      (∀ d ∈ ds, ∀ j : Nat, mapFind vs0 (addKey base d) = some j →
        groundedAt (ds.foldl (fun s d => visitNbr vs0 s (addKey base d)) st).1 j) ∧
      ((ds.foldl (fun s d => visitNbr vs0 s (addKey base d)) st).1.countP
            (fun v => ! v.grounded) +
          (ds.foldl (fun s d => visitNbr vs0 s (addKey base d)) st).2.length ≤
        st.1.countP (fun v => ! v.grounded) + st.2.length) := by
  induction ds with
  | nil =>
    intro st hstrip _
    exact ⟨hstrip, fun _ h => h, ⟨[], by simp, by simp, fun _ h => Or.inl h⟩,
      fun d hd => absurd hd (by simp), le_rfl⟩
  | cons d ds ih =>
    intro st hstrip hreach
    simp only [List.foldl_cons]
    obtain ⟨hs1, hmono1, ⟨e1, hq1, hr1, hnew1⟩, hcov1, hms1⟩ :=
      visitNbr_step vs0 st (addKey base d) hstrip
        (hreach d (List.mem_cons_self d ds))
    obtain ⟨hs2, hmono2, ⟨e2, hq2, hr2, hnew2⟩, hcov2, hms2⟩ :=
      ih (visitNbr vs0 st (addKey base d)) hs1
        (fun d2 hd2 => hreach d2 (List.mem_cons_of_mem d hd2))
    refine ⟨hs2, fun j h => hmono2 j (hmono1 j h), ⟨e1 ++ e2, ?_, ?_, ?_⟩, ?_, ?_⟩
    · rw [hq2, hq1, List.append_assoc]
    · intro j hj
      rcases List.mem_append.1 hj with h1 | h2
      · exact hr1 j h1
      · exact hr2 j h2
    · intro j hj
      rcases hnew2 j hj with h1 | h2
      · rcases hnew1 j h1 with ha | hb
        · exact Or.inl ha
        · exact Or.inr (List.mem_append.2 (Or.inl hb))
      · exact Or.inr (List.mem_append.2 (Or.inr h2))
    · intro d2 hd2 j hmj
      rcases List.mem_cons.1 hd2 with rfl | hd3
      · exact hmono2 j (hcov1 j hmj)
      · exact hcov2 d2 hd3 j hmj
    · exact le_trans hms2 hms1

/-- Effect of processing one dequeued index: skeleton unchanged, grounding
monotone, queue growth is reachable and newly grounded, every grid neighbor
of the dequeued voxel ends grounded, and the measure does not increase. -/
theorem visit_props (vs0 : List SimVoxel) (vs : List SimVoxel) (q : List Nat) (i : Nat)
    (hstrip : stripEq vs vs0) (hi : Reaches vs0 i) :
    stripEq (visit vs0 vs q i).1 vs0 ∧
    (∀ j : Nat, groundedAt vs j → groundedAt (visit vs0 vs q i).1 j) ∧
    (∃ extra, (visit vs0 vs q i).2 = q ++ extra ∧
      (∀ j ∈ extra, Reaches vs0 j) ∧
      (∀ j : Nat, groundedAt (visit vs0 vs q i).1 j → groundedAt vs j ∨ j ∈ extra)) ∧
    (∀ j : Nat, edgeStep vs0 i j → groundedAt (visit vs0 vs q i).1 j) ∧
    ((visit vs0 vs q i).1.countP (fun v => ! v.grounded) + (visit vs0 vs q i).2.length ≤
      vs.countP (fun v => ! v.grounded) + q.length) := by
  rcases hv : vs0[i]? with _ | v
  · have hid : visit vs0 vs q i = (vs, q) := by
      unfold visit
      rw [hv]
    rw [hid]
    refine ⟨hstrip, fun _ h => h, ⟨[], by simp, by simp, fun _ h => Or.inl h⟩, ?_, le_rfl⟩
    intro j hedge
    obtain ⟨v2, d, hv2, -, -⟩ := hedge
    rw [hv] at hv2
    exact absurd hv2 (by simp)
  · have hid : visit vs0 vs q i =
        neighborOffsets.foldl (fun s d => visitNbr vs0 s (addKey (keyOf v) d)) (vs, q) := by
      unfold visit
      rw [hv]
    rw [hid]
    obtain ⟨hs, hmono, hext, hcov, hms⟩ :=
      visit_fold vs0 (keyOf v) neighborOffsets (vs, q) hstrip
        (fun d hd j hmj => Reaches.step i j hi ⟨v, d, hv, hd, hmj⟩)
    refine ⟨hs, hmono, hext, ?_, hms⟩
    intro j hedge
    obtain ⟨v2, d, hv2, hd, hmj⟩ := hedge
    have hv2v : v2 = v := Option.some.inj (hv2.symm.trans hv)
    rw [hv2v] at hmj
    exact hcov d hd j hmj

/-- The BFS worklist loop drains its queue and preserves the invariant when
given fuel exceeding the `ungrounded + queue` measure. -/
theorem bfsLoop_correct (vs0 : List SimVoxel) :
    ∀ (fuel : Nat) (vs : List SimVoxel) (q : List Nat),
      BfsInv vs0 vs q →
      vs.countP (fun v => ! v.grounded) + q.length < fuel →
      BfsInv vs0 (bfsLoop vs0 fuel vs q).1 [] ∧ (bfsLoop vs0 fuel vs q).2 = [] := by
  intro fuel
  induction fuel with
  | zero => intro vs q _ hm; omega
  | succ fuel ih =>
    intro vs q hinv hm
    cases q with
    | nil => exact ⟨hinv, rfl⟩
    | cons i rest =>
      obtain ⟨hs, hmono, ⟨extra, hq, hrext, hnew⟩, hcov, hms⟩ :=
        visit_props vs0 vs rest i hinv.hstrip (hinv.hqreach i (List.mem_cons_self i rest))
      have hinv2 : BfsInv vs0 (visit vs0 vs rest i).1 (visit vs0 vs rest i).2 := by
        refine ⟨hs, ?_, ?_, ?_, ?_⟩
        · intro j hj
          rcases hnew j hj with h1 | h2
          · exact hinv.hsound j h1
          · exact hrext j h2
        · intro x hx
          rw [hq] at hx
          rcases List.mem_append.1 hx with h1 | h2
          · exact hinv.hqreach x (List.mem_cons_of_mem i h1)
          · exact hrext x h2
        · intro j hj hjq j2 hedge
          rcases hnew j hj with h1 | h2
          · by_cases hji : j = i
            · subst hji
              exact hcov j2 hedge
            · have hjq2 : j ∉ i :: rest := by
                intro hmem
                rcases List.mem_cons.1 hmem with h | h
                · exact hji h
                · exact hjq (by rw [hq]; exact List.mem_append.2 (Or.inl h))
              exact hmono j2 (hinv.hclosed j h1 hjq2 j2 hedge)
          · exact absurd (by rw [hq]; exact List.mem_append.2 (Or.inr h2)) hjq
        · intro i2 v2 hv2 ha2
          obtain ⟨w, hw, hsw⟩ :=
            stripEq_lookup (stripEq_trans hs (stripEq_symm hinv.hstrip)) hv2
          have haw : isAnchor w := (isAnchor_of_strip_eq hsw).2 ha2
          have hgw : w.grounded = true := hinv.hanchor i2 w hw haw
          obtain ⟨w2, hw2, hg2⟩ := hmono i2 ⟨w, hw, hgw⟩
          rw [hv2] at hw2
          exact (Option.some.inj hw2) ▸ hg2
      have hms2 : (visit vs0 vs rest i).1.countP (fun v => ! v.grounded) +
          (visit vs0 vs rest i).2.length < fuel := by
        have hlen : (i :: rest).length = rest.length + 1 := by simp
        omega
      exact ih _ _ hinv2 hms2

/-- Reachable voxels are non-falling (anchors by definition, edge targets
because only non-falling voxels are in the grid map). -/
theorem Reaches_nonFalling {vs : List SimVoxel} {i : Nat} (h : Reaches vs i) :
    ∃ u, vs[i]? = some u ∧ u.isFalling = false := by
  induction h with
  | anchor j v hv ha => exact ⟨v, hv, ha.1⟩
  | step j j2 hj hedge ih =>
    obtain ⟨v, d, hv, hd, hm⟩ := hedge
    obtain ⟨u, hu, huf, -⟩ := mapFind_spec vs _ j2 hm
    exact ⟨u, hu, huf⟩

theorem triggerUnsupported_getElem? (kicks : Nat → Kick) (l : List SimVoxel) (i : Nat) :
    (triggerUnsupported kicks l)[i]? = (l[i]?).map (fun v =>
      if v.isFalling = false ∧ v.grounded = false then applyKick (kicks i) v else v) :=
  mapIdx0_getElem? _ i l

/-- Slotwise description of the anchor-marking phase. -/
theorem markClear_getElem? (vs : List SimVoxel) (j : Nat) :
    (markAnchors (clearGrounded vs))[j]? = (vs[j]?).map (fun u =>
      if isAnchor { u with grounded := false } then { u with grounded := true }
      else { u with grounded := false }) := by
  unfold markAnchors clearGrounded
  rw [List.getElem?_map, List.getElem?_map, Option.map_map]
  rcases hv : vs[j]? with _ | u
  · rfl
  · simp only [Option.map_some', Function.comp]

theorem markClear_stripEq (vs : List SimVoxel) :
    stripEq (markAnchors (clearGrounded vs)) vs := by
  intro j
  rw [markClear_getElem?]
  rcases hv : vs[j]? with _ | u
  · rfl
  · simp only [Option.map_some']
    by_cases h : isAnchor { u with grounded := false }
    · rw [if_pos h]
      rfl
    · rw [if_neg h]
      rfl

/-- Membership in the initial anchor queue. -/
theorem mem_anchorQueue (vs1 : List SimVoxel) (i : Nat) :
    i ∈ anchorQueue vs1 ↔ ∃ v, vs1[i]? = some v ∧ isAnchor v := by
  unfold anchorQueue
  rw [List.mem_filter, List.mem_range]
  constructor
  · rintro ⟨hi, hp⟩
    rcases hv : vs1[i]? with _ | v
    · rw [hv] at hp
      exact absurd hp (by simp)
    · rw [hv] at hp
      exact ⟨v, rfl, of_decide_eq_true hp⟩
  · rintro ⟨v, hv, ha⟩
    refine ⟨(List.getElem?_eq_some.mp hv).1, ?_⟩
    rw [hv]
    exact decide_eq_true ha

/-- In the marked list, grounded is exactly the anchor condition. -/
theorem markClear_grounded_iff (vs : List SimVoxel) (j : Nat) (w : SimVoxel)
    (hw : (markAnchors (clearGrounded vs))[j]? = some w) :
    w.grounded = true ↔ isAnchor w := by
  rw [markClear_getElem?] at hw
  rcases hv : vs[j]? with _ | u
  · rw [hv] at hw
    exact absurd hw (by simp)
  · rw [hv] at hw
    simp only [Option.map_some'] at hw
    by_cases h : isAnchor { u with grounded := false }
    · rw [if_pos h] at hw
      rw [← Option.some.inj hw]
      have : isAnchor ({ u with grounded := true } : SimVoxel) ↔
          isAnchor ({ u with grounded := false } : SimVoxel) :=
        isAnchor_of_strip_eq rfl
      simp only [this]
      exact ⟨fun _ => h, fun _ => trivial⟩
    · rw [if_neg h] at hw
      rw [← Option.some.inj hw]
      simp only [h]
      constructor
      · intro hh
        exact absurd hh (by simp)
      · intro hh
        exact hh.elim

/-- The invariant holds at BFS entry. -/
theorem integrity_init (vs : List SimVoxel) :
    BfsInv (markAnchors (clearGrounded vs)) (markAnchors (clearGrounded vs))
      (anchorQueue (markAnchors (clearGrounded vs))) := by
  refine ⟨stripEq_refl _, ?_, ?_, ?_, ?_⟩
  · intro j ⟨w, hw, hg⟩
    exact Reaches.anchor j w hw ((markClear_grounded_iff vs j w hw).1 hg)
  · intro i hi
    obtain ⟨v, hv, ha⟩ := (mem_anchorQueue _ i).1 hi
    exact Reaches.anchor i v hv ha
  · intro j ⟨w, hw, hg⟩ hjq
    exact absurd ((mem_anchorQueue _ j).2
      ⟨w, hw, (markClear_grounded_iff vs j w hw).1 hg⟩) hjq
  · intro i v hv ha
    exact (markClear_grounded_iff vs i v hv).2 ha

/-- Full slotwise characterization of one structural-integrity pass: a
falling voxel is only un-grounded; a resting voxel keeps its state (with
`grounded := true`) exactly when it is reachable from a ground anchor, and is
otherwise sent falling with its drawn kick. -/
theorem integrity_spec (kicks : Nat → Kick) (vs : List SimVoxel) (i : Nat) (v : SimVoxel)
    (hv : vs[i]? = some v) :
    ∃ w, (checkStructuralIntegrity kicks vs)[i]? = some w ∧
      (v.isFalling = true → w = { v with grounded := false }) ∧
      (v.isFalling = false → Reaches vs i → w = { v with grounded := true }) ∧
      (v.isFalling = false → ¬ Reaches vs i →
        w = { v with isFalling := true, grounded := false,
                     vx := (kicks i).vx, vy := (kicks i).vy, vz := (kicks i).vz,
                     rvx := (kicks i).rvx, rvy := (kicks i).rvy,
                     rvz := (kicks i).rvz }) := by
  have hck : checkStructuralIntegrity kicks vs =
      triggerUnsupported kicks
        (bfsLoop (markAnchors (clearGrounded vs)) (2 * vs.length + 1)
          (markAnchors (clearGrounded vs))
          (anchorQueue (markAnchors (clearGrounded vs)))).1 := rfl
  have hstrip1 : stripEq (markAnchors (clearGrounded vs)) vs := markClear_stripEq vs
  have hlen1 : (markAnchors (clearGrounded vs)).length = vs.length := stripEq_length hstrip1
  have hfuel : (markAnchors (clearGrounded vs)).countP (fun v => ! v.grounded) +
      (anchorQueue (markAnchors (clearGrounded vs))).length < 2 * vs.length + 1 := by
    have h1 := List.countP_le_length (fun v : SimVoxel => ! v.grounded)
      (l := markAnchors (clearGrounded vs))
    have h2 : (anchorQueue (markAnchors (clearGrounded vs))).length ≤
        (markAnchors (clearGrounded vs)).length := by
      unfold anchorQueue
      exact le_trans (List.length_filter_le _ _) (by simp)
    omega
  obtain ⟨hinvF, -⟩ := bfsLoop_correct (markAnchors (clearGrounded vs)) (2 * vs.length + 1)
    (markAnchors (clearGrounded vs)) (anchorQueue (markAnchors (clearGrounded vs)))
    (integrity_init vs) hfuel
  have hcomplete : ∀ j : Nat, Reaches (markAnchors (clearGrounded vs)) j →
      groundedAt (bfsLoop (markAnchors (clearGrounded vs)) (2 * vs.length + 1)
        (markAnchors (clearGrounded vs))
        (anchorQueue (markAnchors (clearGrounded vs)))).1 j := by
    intro j hr
    induction hr with
    | anchor j2 v2 hv2 ha2 =>
      obtain ⟨w, hw, hsw⟩ := stripEq_lookup (stripEq_symm hinvF.hstrip) hv2
      exact ⟨w, hw, hinvF.hanchor j2 w hw ((isAnchor_of_strip_eq hsw).2 ha2)⟩
    | step j2 j3 hj2 hedge ih =>
      exact hinvF.hclosed j2 ih (by simp) j3 hedge
  -- lookup the voxel through the marking and the loop
  have hv1 : (markAnchors (clearGrounded vs))[i]? = some
      (if isAnchor { v with grounded := false } then { v with grounded := true }
       else { v with grounded := false }) := by
    rw [markClear_getElem?, hv]
    rfl
  have hreach_iff : Reaches (markAnchors (clearGrounded vs)) i ↔ Reaches vs i :=
    Reaches_iff_stripEq hstrip1 i
  obtain ⟨w1, hw1, hsw1⟩ := stripEq_lookup (stripEq_symm hinvF.hstrip) hv1
  have hsw1v : strip w1 = strip v := by
    rw [hsw1]
    by_cases h : isAnchor { v with grounded := false }
    · rw [if_pos h]
      rfl
    · rw [if_neg h]
      rfl
  have hw1f : w1.isFalling = v.isFalling := by
    rw [← strip_isFalling w1, hsw1v, strip_isFalling]
  rw [hck]
  rw [triggerUnsupported_getElem?, hw1]
  simp only [Option.map_some']
  refine ⟨_, rfl, ?_, ?_, ?_⟩
  · -- falling input: not reachable, stays as cleared, untouched by the trigger
    intro hf
    have hnr : ¬ Reaches (markAnchors (clearGrounded vs)) i := by
      intro hr
      obtain ⟨u, hu, huf⟩ := Reaches_nonFalling hr
      rw [hv1] at hu
      have : u.isFalling = v.isFalling := by
        have hsu : strip u = strip v := by
          rw [← Option.some.inj hu]
          by_cases h : isAnchor { v with grounded := false }
          · rw [if_pos h]
            rfl
          · rw [if_neg h]
            rfl
        rw [← strip_isFalling u, hsu, strip_isFalling]
      rw [this, hf] at huf
      exact absurd huf (by simp)
    have hng : w1.grounded = false := by
      rcases hg : w1.grounded with _ | _
      · rfl
      · exact absurd (hinvF.hsound i ⟨w1, hw1, hg⟩) hnr
    have hw1eq : w1 = { v with grounded := false } :=
      eq_of_strip_eq hsw1v (by rw [hng])
    rw [if_neg ?_]
    · exact hw1eq
    · rw [hw1f, hf]
      intro hc
      exact absurd hc.1 (by simp)
  · -- resting and reachable: grounded, untouched by the trigger
    intro hf hr
    obtain ⟨w2, hw2, hg2⟩ := hcomplete i (hreach_iff.2 hr)
    rw [hw1] at hw2
    have hw21 : w2 = w1 := (Option.some.inj hw2).symm
    have hg1 : w1.grounded = true := hw21 ▸ hg2
    have hw1eq : w1 = { v with grounded := true } :=
      eq_of_strip_eq hsw1v (by rw [hg1])
    rw [if_neg ?_]
    · exact hw1eq
    · rw [hg1]
      intro hc
      exact absurd hc.2 (by simp)
  · -- resting and unreachable: sent falling with the drawn kick
    intro hf hr
    have hng : w1.grounded = false := by
      rcases hg : w1.grounded with _ | _
      · rfl
      · exact absurd (hreach_iff.1 (hinvF.hsound i ⟨w1, hw1, hg⟩)) hr
    have hw1eq : w1 = { v with grounded := false } :=
      eq_of_strip_eq hsw1v (by rw [hng])
    rw [if_pos ⟨by rw [hw1f, hf], hng⟩, hw1eq]
    unfold applyKick
    rw [if_neg (by simp [hf])]

theorem setGrounded_length (vs : List SimVoxel) (j : Nat) :
    (setGrounded vs j).length = vs.length := by
  unfold setGrounded
  rcases vs[j]? with _ | v
  · rfl
  · exact List.length_set vs j _

theorem visitNbr_length (vs0 : List SimVoxel) (st : List SimVoxel × List Nat)
    (k : ℤ × ℤ × ℤ) : (visitNbr vs0 st k).1.length = st.1.length := by
  unfold visitNbr
  rcases mapFind vs0 k with _ | j
  · rfl
  · dsimp only
    rcases st.1[j]? with _ | nv
    · rfl
    · dsimp only
      by_cases h : nv.isFalling = false ∧ nv.grounded = false
      · rw [if_pos h]
        exact setGrounded_length st.1 j
      · rw [if_neg h]

theorem visit_length (vs0 vs : List SimVoxel) (q : List Nat) (i : Nat) :
    (visit vs0 vs q i).1.length = vs.length := by
  unfold visit
  rcases vs0[i]? with _ | v
  · rfl
  · have hgen : ∀ (ds : List (ℤ × ℤ × ℤ)) (st : List SimVoxel × List Nat),
        (ds.foldl (fun s d => visitNbr vs0 s (addKey (keyOf v) d)) st).1.length =
          st.1.length := by
      intro ds
      induction ds with
      | nil => intro st; rfl
      | cons d ds ih =>
        intro st
        simp only [List.foldl_cons]
        rw [ih (visitNbr vs0 st (addKey (keyOf v) d)), visitNbr_length]
    exact hgen neighborOffsets (vs, q)

theorem bfsLoop_length (vs0 : List SimVoxel) :
    ∀ (fuel : Nat) (vs : List SimVoxel) (q : List Nat),
      (bfsLoop vs0 fuel vs q).1.length = vs.length := by
  intro fuel
  induction fuel with
  | zero => intro vs q; rfl
  | succ fuel ih =>
    intro vs q
    cases q with
    | nil => rfl
    | cons i rest =>
      show (bfsLoop vs0 fuel (visit vs0 vs rest i).1 (visit vs0 vs rest i).2).1.length = _
      rw [ih, visit_length]

theorem triggerUnsupported_length (kicks : Nat → Kick) (l : List SimVoxel) :
    (triggerUnsupported kicks l).length = l.length := mapIdx0_length _ l

theorem checkStructuralIntegrity_length (kicks : Nat → Kick) (vs : List SimVoxel) :
    (checkStructuralIntegrity kicks vs).length = vs.length := by
  show (triggerUnsupported kicks
    (bfsLoop (markAnchors (clearGrounded vs)) (2 * vs.length + 1)
      (markAnchors (clearGrounded vs))
      (anchorQueue (markAnchors (clearGrounded vs)))).1).length = vs.length
  rw [triggerUnsupported_length, bfsLoop_length]
  unfold markAnchors clearGrounded
  simp

/-! ## C2: the structural-integrity pass computes anchor reachability -/

/-- C2.  After one structural-integrity pass, a non-falling particle ends
`grounded = true` if and only if it is reachable from some ground anchor
through a chain of 6-connected axis-aligned neighbors on the rounded
integer grid of non-falling particles (`Reaches`, whose lookups go through
the grid map, which holds only non-falling particles); a reachable particle
is only re-grounded, an unreachable one is transitioned to falling with its
randomized kick velocity; and falling particles are excluded from the graph
entirely (no falling particle is reachable). -/
theorem integrity_grounded_iff_reachable (kicks : Nat → Kick) (vs : List SimVoxel)
    (i : Nat) (v : SimVoxel) (hv : vs[i]? = some v) (hnf : v.isFalling = false) :
    (∃ w, (checkStructuralIntegrity kicks vs)[i]? = some w ∧
      (w.grounded = true ↔ Reaches vs i) ∧
      (Reaches vs i → w = { v with grounded := true }) ∧
      (¬ Reaches vs i →
        w = { v with isFalling := true, grounded := false,
                     vx := (kicks i).vx, vy := (kicks i).vy, vz := (kicks i).vz,
                     rvx := (kicks i).rvx, rvy := (kicks i).rvy,
                     rvz := (kicks i).rvz })) ∧
    (∀ (j : Nat) (u : SimVoxel), vs[j]? = some u → u.isFalling = true → ¬ Reaches vs j) := by
  constructor
  · obtain ⟨w, hw, -, hrw, hnw⟩ := integrity_spec kicks vs i v hv
    by_cases hr : Reaches vs i
    · refine ⟨w, hw, ?_, hrw hnf, fun hc => absurd hr hc⟩
      rw [hrw hnf hr]
      exact ⟨fun _ => hr, fun _ => rfl⟩
    · refine ⟨w, hw, ?_, fun hc => absurd hc hr, hnw hnf⟩
      rw [hnw hnf hr]
      constructor
      · intro hc
        exact absurd hc (by simp)
      · intro hc
        exact absurd hc hr
  · intro j u hu huf hr
    obtain ⟨u2, hu2, hu2f⟩ := Reaches_nonFalling hr
    rw [hu] at hu2
    rw [← Option.some.inj hu2] at hu2f
    rw [huf] at hu2f
    exact absurd hu2f (by simp)

/-- C2 (witness): the theorem applied to the stacked voxel of the spec's
end-to-end scenario. -/
theorem integrity_grounded_iff_reachable_witness :
    (∃ w, (checkStructuralIntegrity (fun _ => witKick) towerVoxels)[2]? = some w ∧
      (w.grounded = true ↔ Reaches towerVoxels 2) ∧
      (Reaches towerVoxels 2 → w = { towerV2 with grounded := true }) ∧
      (¬ Reaches towerVoxels 2 →
        w = { towerV2 with isFalling := true, grounded := false,
                           vx := witKick.vx, vy := witKick.vy, vz := witKick.vz,
                           rvx := witKick.rvx, rvy := witKick.rvy,
                           rvz := witKick.rvz })) ∧
    (∀ (j : Nat) (u : SimVoxel), towerVoxels[j]? = some u → u.isFalling = true →
      ¬ Reaches towerVoxels j) :=
  integrity_grounded_iff_reachable (fun _ => witKick) towerVoxels 2 towerV2 rfl rfl

/-! ## C1: falling and grounded are never both set -/

theorem applyKick_flags (k : Kick) (v : SimVoxel)
    (h : ¬(v.isFalling = true ∧ v.grounded = true)) :
    ¬((applyKick k v).isFalling = true ∧ (applyKick k v).grounded = true) := by
  unfold applyKick
  by_cases hf : v.isFalling
  · rw [if_pos hf]
    exact h
  · rw [if_neg hf]
    intro hc
    exact absurd hc.2 (by simp)

theorem fallStepVoxel_flags (v : SimVoxel) :
    (fallStepVoxel v).isFalling = v.isFalling ∧ (fallStepVoxel v).grounded = v.grounded := by
  unfold fallStepVoxel
  dsimp only
  split_ifs <;> exact ⟨rfl, rfl⟩

theorem rebuildStepVoxel_flags (elapsed : ℚ) (t : RebuildTarget) (v : SimVoxel)
    (h : ¬(v.isFalling = true ∧ v.grounded = true)) :
    ¬((rebuildStepVoxel elapsed t v).1.isFalling = true ∧
      (rebuildStepVoxel elapsed t v).1.grounded = true) := by
  unfold rebuildStepVoxel
  dsimp only
  split_ifs
  · exact h
  · exact h
  · exact h
  · intro hc
    exact absurd hc.1 (by simp)

theorem integrity_flagsOK (kicks : Nat → Kick) (vs : List SimVoxel) :
    flagsOK (checkStructuralIntegrity kicks vs) := by
  intro w hw
  obtain ⟨i, hwi⟩ := List.mem_iff_getElem?.1 hw
  rcases hv : vs[i]? with _ | v
  · rw [List.getElem?_eq_none_iff] at hv
    have := (List.getElem?_eq_some.mp hwi).1
    rw [checkStructuralIntegrity_length] at this
    omega
  · obtain ⟨w2, hw2, hfall, hrw, hnw⟩ := integrity_spec kicks vs i v hv
    rw [hwi] at hw2
    rw [Option.some.inj hw2]
    by_cases hf : v.isFalling = true
    · rw [hfall hf]
      intro hc
      exact absurd hc.2 (by simp)
    · have hf2 : v.isFalling = false := by
        revert hf
        cases v.isFalling
        · intro _
          rfl
        · intro hh
          exact absurd rfl hh
      by_cases hr : Reaches vs i
      · rw [hrw hf2 hr]
        intro hc
        exact absurd (hf2 ▸ hc.1) (by simp)
      · rw [hnw hf2 hr]
        intro hc
        exact absurd hc.2 (by simp)

theorem flagsOK_applyOp (e : Engine) (op : SimOp) (h : flagsOK e.voxels) :
    flagsOK (applyOp e op).voxels := by
  cases op with
  | trigger k i =>
    intro w hw
    have hw2 : w ∈ triggerFalling k e.voxels i := hw
    unfold triggerFalling at hw2
    rcases hv : e.voxels[i]? with _ | v
    · rw [hv] at hw2
      exact h w hw2
    · rw [hv] at hw2
      dsimp only at hw2
      rcases List.mem_or_eq_of_mem_set hw2 with h1 | rfl
      · exact h w h1
      · exact applyKick_flags k v (h v (List.getElem?_mem hv))
  | integrity kicks => exact integrity_flagsOK kicks e.voxels
  | dismantleOp kicks scatter =>
    show flagsOK (dismantle kicks scatter e).voxels
    unfold dismantle
    by_cases hs : e.state ≠ AppState.STABLE
    · rw [if_pos hs]
      exact h
    · rw [if_neg hs]
      intro w hw
      obtain ⟨k2, a, hk, rfl⟩ := mapIdxFrom_mem _ _ 0 w hw
      have ha := applyKick_flags (kicks (0 + k2)) a (h a (List.getElem?_mem hk))
      intro hc
      exact ha hc
  | rebuildOp now targets => exact h
  | physics now =>
    show flagsOK (updatePhysics now e).voxels
    by_cases hs : e.state = AppState.REBUILDING
    · rw [updatePhysics_voxels_rebuilding now e hs]
      intro w hw
      obtain ⟨x, hx, rfl⟩ := List.mem_map.1 hw
      obtain ⟨k2, a, hk, rfl⟩ := mapIdxFrom_mem _ _ 0 x hx
      have ha := h a (List.getElem?_mem hk)
      unfold rebuildStepAt
      rcases e.rebuildTargets[0 + k2]? with _ | t
      · exact ha
      · exact rebuildStepVoxel_flags (now - e.rebuildStartTime) t a ha
    · rw [updatePhysics_voxels_free now e hs]
      intro w hw
      obtain ⟨a, ha, rfl⟩ := List.mem_map.1 hw
      obtain ⟨hf, hg⟩ := fallStepVoxel_flags a
      rw [hf, hg]
      exact h a ha
  | load jit data =>
    intro w hw
    obtain ⟨k2, a, hk, rfl⟩ := mapIdxFrom_mem _ _ 0 w hw
    intro hc
    exact absurd hc.1 (by simp)

/-- C1.  Starting from any loaded shape and applying any number of simulation
steps (`triggerFalling`, `checkStructuralIntegrity`, `dismantle`, `rebuild`,
`updatePhysics`, further loads), no particle is ever simultaneously
`isFalling = true` and `grounded = true` — in particular the invariant holds
after every completed structural-integrity pass. -/
theorem flags_never_both (jit : Nat → Color → Color) (data : List VoxelData)
    (ops : List SimOp) (e : Engine) :
    flagsOK (runOps (loadInitialModel jit data e) ops).voxels := by
  have hload : ∀ e2 : Engine, flagsOK (loadInitialModel jit data e2).voxels := by
    intro e2 w hw
    obtain ⟨k2, a, hk, rfl⟩ := mapIdxFrom_mem _ _ 0 w hw
    intro hc
    exact absurd hc.1 (by simp)
  have hrun : ∀ (l : List SimOp) (e2 : Engine), flagsOK e2.voxels →
      flagsOK (runOps e2 l).voxels := by
    intro l
    induction l with
    | nil => intro e2 h2; exact h2
    | cons op l ih =>
      intro e2 h2
      exact ih (applyOp e2 op) (flagsOK_applyOp e2 op h2)
  exact hrun ops (loadInitialModel jit data e) (hload e)

end VoxelSim
